import Mathlib

/-!
Verification of the DASH task-parallel runtime against its specification.

The development shallowly embeds the C sources:
 * the two-priority doubly-linked task deques and the per-NUMA task queue
   (`task_deque_push/pushback/pop/popback/insert/move`,
   `dart_tasking_taskqueue_*`),
 * the requeue policy applied after `yield(delay)` (`requeue_task`),
 * the yield entry point (`dart__tasking__yield`) and task creation
   (`dart__tasking__create_task`),
 * the context manager (`dart__tasking__context_init/allocate/create/release`),
 * the copy-in memory pool (`allocate_from_mempool`, `return_to_mempool`,
   `dart_tasking_copyin_prepare_dep`, `dart_tasking_copyin_release_mem`),
 * the sendrecv active-message queue (`dart_amsg_sendrecv_trysend`,
   `amsg_sendrecv_process_internal`).

Machine pointers are modelled as `Option Nat` (a `Nat` names a heap cell,
`none` is the C null pointer); the pointer graph of the doubly linked deques
lives in an explicit heap `Nat → dart_task_node`.
-/

/-- DART return codes surfaced to callers (`dart_ret_t`). -/
inductive dart_ret_t
  | DART_OK
  | DART_ERR_INVAL
  | DART_ERR_AGAIN
  | DART_ERR_OTHER
  deriving DecidableEq, Repr

open dart_ret_t

/-- Modelled from the spec: the task priority values
(`LOW | DEFAULT | HIGH`, plus pseudo-priorities `PARENT` and `INLINE`);
the enum declaration lives in the `dart_tasking.h` interface header which is
not part of the sources, but the queue code dispatches on
`task->prio == DART_PRIO_HIGH`. -/
inductive dart_task_prio_t
  | PRIO_LOW
  | PRIO_DEFAULT
  | PRIO_HIGH
  | PRIO_PARENT
  | PRIO_INLINE
  deriving DecidableEq, Repr

open dart_task_prio_t

/-- The fields of a `dart_task_t` that the task-queue code touches:
the doubly-linked-list pointers `prev`/`next` and the priority used to pick
the high- or low-priority deque.  `prio` is never written by queue code. -/
structure dart_task_node where
  prev : Option Nat
  next : Option Nat
  prio : dart_task_prio_t
  deriving DecidableEq

/-- The heap of task descriptors: every `Nat` names one `dart_task_t`. -/
abbrev TaskHeap := Nat → dart_task_node

/-- Write `task->next = v`. -/
def setNext (h : TaskHeap) (t : Nat) (v : Option Nat) : TaskHeap :=
  fun a => if a = t then { h a with next := v } else h a

/-- Write `task->prev = v`. -/
def setPrev (h : TaskHeap) (t : Nat) (v : Option Nat) : TaskHeap :=
  fun a => if a = t then { h a with prev := v } else h a

/-- `struct task_deque` : head and tail pointers of one doubly linked deque. -/
structure task_deque where
  head : Option Nat
  tail : Option Nat
  deriving DecidableEq

/-- `dart_taskqueue_t` : a pair of deques (high and low priority); the mutex
is irrelevant in this sequential model. -/
structure dart_taskqueue_t where
  highprio : task_deque
  lowprio : task_deque
  deriving DecidableEq

/-- `dart_tasking_taskqueue_init`. -/
def dart_tasking_taskqueue_init : dart_taskqueue_t :=
  { highprio := { head := none, tail := none }
    lowprio := { head := none, tail := none } }

/-- `task_deque_push`: prepend `task` at the head.  The caller
(`dart_tasking_taskqueue_push`) has already nulled the task's links. -/
def task_deque_push (h : TaskHeap) (d : task_deque) (task : Nat) :
    TaskHeap × task_deque :=
  match d.head with
  | none =>
      -- task queue previously empty: deque->head = task; deque->tail = deque->head
      (h, { head := some task, tail := some task })
  | some hd =>
      -- task->next = deque->head; deque->head->prev = task; deque->head = task
      let h := setNext h task (some hd)
      let h := setPrev h hd (some task)
      (h, { d with head := some task })

/-- `task_deque_pushback`: append `task` at the tail.  When the deque is
nonempty the source dereferences `deque->tail`; a state with
`head != NULL` but `tail == NULL` would fault in C and is unreachable, the
model leaves the deque unchanged there. -/
def task_deque_pushback (h : TaskHeap) (d : task_deque) (task : Nat) :
    TaskHeap × task_deque :=
  match d.head with
  | none =>
      (h, { head := some task, tail := some task })
  | some _ =>
      match d.tail with
      | some tl =>
          -- task->prev = deque->tail; deque->tail->next = task; deque->tail = task
          let h := setPrev h task (some tl)
          let h := setNext h tl (some task)
          (h, { d with tail := some task })
      | none => (h, d)

/-- `task_deque_pop`: take the head element.  In the branch where
`head != tail` the source writes `deque->head->prev = NULL` after advancing
the head; if the stored `next` pointer were null the C code would fault,
the model leaves `head := none` there. -/
def task_deque_pop (h : TaskHeap) (d : task_deque) :
    Option Nat × TaskHeap × task_deque :=
  match d.head with
  | none => (none, h, d)
  | some task =>
      let step :=
        if d.head = d.tail then
          (h, ({ head := none, tail := none } : task_deque))
        else
          match (h task).next with
          | some nxt => (setPrev h nxt none, { d with head := some nxt })
          | none => (h, { d with head := none })
      -- task->prev = NULL; task->next = NULL
      let h := setNext step.1 task none
      let h := setPrev h task none
      (some task, h, step.2)

/-- `task_deque_popback`: take the tail element. -/
def task_deque_popback (h : TaskHeap) (d : task_deque) :
    Option Nat × TaskHeap × task_deque :=
  match d.tail with
  | none => (none, h, d)
  | some task =>
      let step :=
        match (h task).prev with
        | none =>
            -- stealing the last element in the queue: deque->head = NULL
            (h, ({ head := none, tail := none } : task_deque))
        | some pv =>
            -- deque->tail = task->prev; deque->tail->next = NULL
            (setNext h pv none, { d with tail := some pv })
      let h := setNext step.1 task none
      let h := setPrev h task none
      (some task, h, step.2)

/-- The position-finding loop of `task_deque_insert`:
`while (tmp != NULL && count++ < pos) tmp = tmp->next;`. -/
def deque_walk (h : TaskHeap) : Option Nat → Nat → Option Nat
  | tmp, 0 => tmp
  | none, _ + 1 => none
  | some t, n + 1 => deque_walk h (h t).next n

/-- `task_deque_insert`: insert at the front when `pos == 0` or the deque is
empty, at the back when the walk ran off the deque or stopped on the last
element, otherwise between `tmp` and `tmp->next`. -/
def task_deque_insert (h : TaskHeap) (d : task_deque) (task : Nat) (pos : Nat) :
    TaskHeap × task_deque :=
  if pos = 0 ∨ d.head = none then
    task_deque_push h d task
  else
    match deque_walk h d.head pos with
    | none => task_deque_pushback h d task
    | some tmp =>
        match (h tmp).next with
        | none => task_deque_pushback h d task
        | some tnext =>
            -- task->next = tmp->next; task->next->prev = task;
            -- task->prev = tmp; tmp->next = task
            let h := setNext h task (some tnext)
            let h := setPrev h tnext (some task)
            let h := setPrev h task (some tmp)
            let h := setNext h tmp (some task)
            (h, d)

/-- `task_deque_move`: splice the whole of `src` onto the front of `dst`.
The source guards with `src->head != NULL && src->tail != NULL` (twice). -/
def task_deque_move (h : TaskHeap) (dst src : task_deque) :
    TaskHeap × task_deque × task_deque :=
  if src.head ≠ none ∧ src.tail ≠ none then
    let step :=
      match dst.head, src.tail with
      | some dh, some st =>
          -- src->tail->next = dst->head; dst->head->prev = src->tail
          let h := setNext h st (some dh)
          let h := setPrev h dh (some st)
          (h, dst)
      | none, _ => (h, { dst with tail := src.tail })
      | some _, none => (h, dst)
    (step.1, { step.2 with head := src.head }, { head := none, tail := none })
  else
    (h, dst, src)

/-- `dart_tasking_taskqueue_push`: null the task's links, then push to
the deque picked by `task->prio == DART_PRIO_HIGH`. -/
def dart_tasking_taskqueue_push (h : TaskHeap) (tq : dart_taskqueue_t)
    (task : Nat) : TaskHeap × dart_taskqueue_t :=
  let h := setNext h task none
  let h := setPrev h task none
  if (h task).prio = PRIO_HIGH then
    let r := task_deque_push h tq.highprio task
    (r.1, { tq with highprio := r.2 })
  else
    let r := task_deque_push h tq.lowprio task
    (r.1, { tq with lowprio := r.2 })

/-- `dart_tasking_taskqueue_pushback`. -/
def dart_tasking_taskqueue_pushback (h : TaskHeap) (tq : dart_taskqueue_t)
    (task : Nat) : TaskHeap × dart_taskqueue_t :=
  let h := setNext h task none
  let h := setPrev h task none
  if (h task).prio = PRIO_HIGH then
    let r := task_deque_pushback h tq.highprio task
    (r.1, { tq with highprio := r.2 })
  else
    let r := task_deque_pushback h tq.lowprio task
    (r.1, { tq with lowprio := r.2 })

/-- `dart_tasking_taskqueue_insert`. -/
def dart_tasking_taskqueue_insert (h : TaskHeap) (tq : dart_taskqueue_t)
    (task : Nat) (pos : Nat) : TaskHeap × dart_taskqueue_t :=
  let h := setNext h task none
  let h := setPrev h task none
  if (h task).prio = PRIO_HIGH then
    let r := task_deque_insert h tq.highprio task pos
    (r.1, { tq with highprio := r.2 })
  else
    let r := task_deque_insert h tq.lowprio task pos
    (r.1, { tq with lowprio := r.2 })

/-- `dart_tasking_taskqueue_pop`: drain the high-priority deque before
the low-priority one. -/
def dart_tasking_taskqueue_pop (h : TaskHeap) (tq : dart_taskqueue_t) :
    Option Nat × TaskHeap × dart_taskqueue_t :=
  let r := task_deque_pop h tq.highprio
  match r.1 with
  | some task => (some task, r.2.1, { tq with highprio := r.2.2 })
  | none =>
      let r2 := task_deque_pop h tq.lowprio
      (r2.1, r2.2.1, { tq with lowprio := r2.2.2 })

/-- `dart_tasking_taskqueue_popback`. -/
def dart_tasking_taskqueue_popback (h : TaskHeap) (tq : dart_taskqueue_t) :
    Option Nat × TaskHeap × dart_taskqueue_t :=
  let r := task_deque_popback h tq.highprio
  match r.1 with
  | some task => (some task, r.2.1, { tq with highprio := r.2.2 })
  | none =>
      let r2 := task_deque_popback h tq.lowprio
      (r2.1, r2.2.1, { tq with lowprio := r2.2.2 })

/-- The pointer surgery of `dart_tasking_taskqueue_remove`:
`prev->next = next; next->prev = prev; task->next = task->prev = NULL`. -/
def remove_unlink_heap (h : TaskHeap) (task : Nat) : TaskHeap :=
  let prev := (h task).prev
  let next := (h task).next
  let h2 := match prev with
            | some p => setNext h p next
            | none => h
  let h3 := match next with
            | some n => setPrev h2 n prev
            | none => h2
  setPrev (setNext h3 task none) task none

/-- `dart_tasking_taskqueue_remove`: unlink `task` wherever it sits and
patch up whichever head/tail pointers referenced it. -/
def dart_tasking_taskqueue_remove (h : TaskHeap) (tq : dart_taskqueue_t)
    (task : Nat) : TaskHeap × dart_taskqueue_t :=
  let prev := (h task).prev
  let next := (h task).next
  let h := remove_unlink_heap h task
  let hq := tq.highprio
  let lq := tq.lowprio
  let step1 :=
    if some task = hq.head then ({ hq with head := next }, lq)
    else if some task = lq.head then (hq, { lq with head := next })
    else (hq, lq)
  let step2 :=
    if some task = step1.1.tail then ({ step1.1 with tail := prev }, step1.2)
    else if some task = step1.2.tail then (step1.1, { step1.2 with tail := prev })
    else step1
  (h, { highprio := step2.1, lowprio := step2.2 })

/-- `dart_tasking_taskqueue_move`: splice both deques of `src` onto
`dst`. -/
def dart_tasking_taskqueue_move (h : TaskHeap) (dst src : dart_taskqueue_t) :
    TaskHeap × dart_taskqueue_t × dart_taskqueue_t :=
  let r1 := task_deque_move h dst.highprio src.highprio
  let r2 := task_deque_move r1.1 dst.lowprio src.lowprio
  (r2.1,
   { highprio := r1.2.1, lowprio := r2.2.1 },
   { highprio := r1.2.2, lowprio := r2.2.2 })

/-- `requeue_task` (scheduler): re-enqueue a task suspended by
`yield(delay)`, with `delay` read from `thread->delay`:
head insertion for `delay == 0`, `insert(q, task, delay)` for positive
`delay`, tail insertion for negative `delay`. -/
def requeue_task (h : TaskHeap) (q : dart_taskqueue_t) (task : Nat)
    (delay : Int) : TaskHeap × dart_taskqueue_t :=
  if delay = 0 then
    dart_tasking_taskqueue_push h q task
  else if delay > 0 then
    dart_tasking_taskqueue_insert h q task delay.toNat
  else
    dart_tasking_taskqueue_pushback h q task

/-! ## Representation of deques as lists

`segb h prv cur l stop` states that following `next` links from the pointer
`cur` spells exactly the list `l` and then reaches the pointer `stop`, and
that every `prev` link points back correctly, the first one to `prv`. -/

def segb (h : TaskHeap) (prv cur : Option Nat) : List Nat → Option Nat → Bool
  | [], stop => cur == stop
  | x :: l, stop =>
      cur == some x && (h x).prev == prv && segb h (some x) ((h x).next) l stop

/-- Pointer to the first element of `l`, or `stop` when `l` is empty. -/
def headPtr (l : List Nat) (stop : Option Nat) : Option Nat :=
  match l with
  | [] => stop
  | x :: _ => some x

/-- Pointer to the last element of `l`, or `prv` when `l` is empty. -/
def lastPtr (prv : Option Nat) (l : List Nat) : Option Nat :=
  match l.getLast? with
  | none => prv
  | some x => some x

/-- A deque whose pointer structure spells exactly the list `l`. -/
def dequeRepr (h : TaskHeap) (d : task_deque) (l : List Nat) : Prop :=
  segb h none d.head l none = true ∧ d.tail = l.getLast? ∧ l.Nodup

/-- A task queue whose high- and low-priority deques spell `lh` and `ll`;
the sets are disjoint and each element sits in the deque matching its
priority. -/
def tqRepr (h : TaskHeap) (tq : dart_taskqueue_t) (lh ll : List Nat) : Prop :=
  dequeRepr h tq.highprio lh ∧ dequeRepr h tq.lowprio ll ∧
  (lh ++ ll).Nodup ∧
  (∀ t ∈ lh, (h t).prio = PRIO_HIGH) ∧
  (∀ t ∈ ll, (h t).prio ≠ PRIO_HIGH)

/-- State of a pair of task queues over one heap, together with the (ghost)
lists abstracting the four deques. -/
structure TQState where
  heap : TaskHeap
  q1 : dart_taskqueue_t
  q2 : dart_taskqueue_t
  l1h : List Nat
  l1l : List Nat
  l2h : List Nat
  l2l : List Nat

/-- All four deques are faithfully abstracted and the queues are disjoint. -/
def TQInv (s : TQState) : Prop :=
  tqRepr s.heap s.q1 s.l1h s.l1l ∧
  tqRepr s.heap s.q2 s.l2h s.l2l ∧
  (s.l1h ++ s.l1l ++ (s.l2h ++ s.l2l)).Nodup

/-- Ghost update for pushing `t` at the front of the deque of its priority. -/
def ghostPush (h : TaskHeap) (t : Nat) (lh ll : List Nat) : List Nat × List Nat :=
  if (h t).prio = PRIO_HIGH then (t :: lh, ll) else (lh, t :: ll)

/-- Ghost update for pushing `t` at the back of the deque of its priority. -/
def ghostPushback (h : TaskHeap) (t : Nat) (lh ll : List Nat) : List Nat × List Nat :=
  if (h t).prio = PRIO_HIGH then (lh ++ [t], ll) else (lh, ll ++ [t])

/-- The list index at which `task_deque_insert` actually places its task:
the front for `pos = 0`, directly *behind* the element at index `pos`
otherwise, clipped to the back of the deque. -/
def insertIdxOfPos (len pos : Nat) : Nat :=
  if pos = 0 then 0 else min len (pos + 1)

/-- Ghost update for `dart_tasking_taskqueue_insert`. -/
def ghostInsert (h : TaskHeap) (t : Nat) (pos : Nat) (lh ll : List Nat) :
    List Nat × List Nat :=
  if (h t).prio = PRIO_HIGH then
    (List.insertIdx (insertIdxOfPos lh.length pos) t lh, ll)
  else
    (lh, List.insertIdx (insertIdxOfPos ll.length pos) t ll)

/-- Ghost update for popping from the front (high before low). -/
def ghostPop (lh ll : List Nat) : List Nat × List Nat :=
  match lh with
  | _ :: rest => (rest, ll)
  | [] => ([], ll.tail)

/-- Ghost update for popping from the back (high before low). -/
def ghostPopback (lh ll : List Nat) : List Nat × List Nat :=
  match lh with
  | _ :: _ => (lh.dropLast, ll)
  | [] => ([], ll.dropLast)

/-- Ghost update for unlinking a task present in one of the two deques. -/
def ghostRemove (t : Nat) (lh ll : List Nat) : List Nat × List Nat :=
  if t ∈ lh then (lh.erase t, ll) else (lh, ll.erase t)

/-- The transitions generated by the task-queue operations; each constructor
pairs the concrete pointer manipulation with its ghost-list effect.
Freshness/membership hypotheses record the calling conventions of the
scheduler: a pushed task is not currently enqueued anywhere, a removed task
is in the queue it is removed from. -/
inductive QStep : TQState → TQState → Prop
  | push1 (s : TQState) (t : Nat)
      (hfresh : t ∉ s.l1h ++ s.l1l ++ (s.l2h ++ s.l2l)) :
      QStep s { heap := (dart_tasking_taskqueue_push s.heap s.q1 t).1
                q1 := (dart_tasking_taskqueue_push s.heap s.q1 t).2
                q2 := s.q2
                l1h := (ghostPush s.heap t s.l1h s.l1l).1
                l1l := (ghostPush s.heap t s.l1h s.l1l).2
                l2h := s.l2h, l2l := s.l2l }
  | push2 (s : TQState) (t : Nat)
      (hfresh : t ∉ s.l1h ++ s.l1l ++ (s.l2h ++ s.l2l)) :
      QStep s { heap := (dart_tasking_taskqueue_push s.heap s.q2 t).1
                q1 := s.q1
                q2 := (dart_tasking_taskqueue_push s.heap s.q2 t).2
                l1h := s.l1h, l1l := s.l1l
                l2h := (ghostPush s.heap t s.l2h s.l2l).1
                l2l := (ghostPush s.heap t s.l2h s.l2l).2 }
  | pushback1 (s : TQState) (t : Nat)
      (hfresh : t ∉ s.l1h ++ s.l1l ++ (s.l2h ++ s.l2l)) :
      QStep s { heap := (dart_tasking_taskqueue_pushback s.heap s.q1 t).1
                q1 := (dart_tasking_taskqueue_pushback s.heap s.q1 t).2
                q2 := s.q2
                l1h := (ghostPushback s.heap t s.l1h s.l1l).1
                l1l := (ghostPushback s.heap t s.l1h s.l1l).2
                l2h := s.l2h, l2l := s.l2l }
  | pushback2 (s : TQState) (t : Nat)
      (hfresh : t ∉ s.l1h ++ s.l1l ++ (s.l2h ++ s.l2l)) :
      QStep s { heap := (dart_tasking_taskqueue_pushback s.heap s.q2 t).1
                q1 := s.q1
                q2 := (dart_tasking_taskqueue_pushback s.heap s.q2 t).2
                l1h := s.l1h, l1l := s.l1l
                l2h := (ghostPushback s.heap t s.l2h s.l2l).1
                l2l := (ghostPushback s.heap t s.l2h s.l2l).2 }
  | insert1 (s : TQState) (t : Nat) (pos : Nat)
      (hfresh : t ∉ s.l1h ++ s.l1l ++ (s.l2h ++ s.l2l)) :
      QStep s { heap := (dart_tasking_taskqueue_insert s.heap s.q1 t pos).1
                q1 := (dart_tasking_taskqueue_insert s.heap s.q1 t pos).2
                q2 := s.q2
                l1h := (ghostInsert s.heap t pos s.l1h s.l1l).1
                l1l := (ghostInsert s.heap t pos s.l1h s.l1l).2
                l2h := s.l2h, l2l := s.l2l }
  | insert2 (s : TQState) (t : Nat) (pos : Nat)
      (hfresh : t ∉ s.l1h ++ s.l1l ++ (s.l2h ++ s.l2l)) :
      QStep s { heap := (dart_tasking_taskqueue_insert s.heap s.q2 t pos).1
                q1 := s.q1
                q2 := (dart_tasking_taskqueue_insert s.heap s.q2 t pos).2
                l1h := s.l1h, l1l := s.l1l
                l2h := (ghostInsert s.heap t pos s.l2h s.l2l).1
                l2l := (ghostInsert s.heap t pos s.l2h s.l2l).2 }
  | pop1 (s : TQState) :
      QStep s { heap := (dart_tasking_taskqueue_pop s.heap s.q1).2.1
                q1 := (dart_tasking_taskqueue_pop s.heap s.q1).2.2
                q2 := s.q2
                l1h := (ghostPop s.l1h s.l1l).1
                l1l := (ghostPop s.l1h s.l1l).2
                l2h := s.l2h, l2l := s.l2l }
  | pop2 (s : TQState) :
      QStep s { heap := (dart_tasking_taskqueue_pop s.heap s.q2).2.1
                q1 := s.q1
                q2 := (dart_tasking_taskqueue_pop s.heap s.q2).2.2
                l1h := s.l1h, l1l := s.l1l
                l2h := (ghostPop s.l2h s.l2l).1
                l2l := (ghostPop s.l2h s.l2l).2 }
  | popback1 (s : TQState) :
      QStep s { heap := (dart_tasking_taskqueue_popback s.heap s.q1).2.1
                q1 := (dart_tasking_taskqueue_popback s.heap s.q1).2.2
                q2 := s.q2
                l1h := (ghostPopback s.l1h s.l1l).1
                l1l := (ghostPopback s.l1h s.l1l).2
                l2h := s.l2h, l2l := s.l2l }
  | popback2 (s : TQState) :
      QStep s { heap := (dart_tasking_taskqueue_popback s.heap s.q2).2.1
                q1 := s.q1
                q2 := (dart_tasking_taskqueue_popback s.heap s.q2).2.2
                l1h := s.l1h, l1l := s.l1l
                l2h := (ghostPopback s.l2h s.l2l).1
                l2l := (ghostPopback s.l2h s.l2l).2 }
  | remove1 (s : TQState) (t : Nat)
      (hmem : t ∈ s.l1h ++ s.l1l) :
      QStep s { heap := (dart_tasking_taskqueue_remove s.heap s.q1 t).1
                q1 := (dart_tasking_taskqueue_remove s.heap s.q1 t).2
                q2 := s.q2
                l1h := (ghostRemove t s.l1h s.l1l).1
                l1l := (ghostRemove t s.l1h s.l1l).2
                l2h := s.l2h, l2l := s.l2l }
  | remove2 (s : TQState) (t : Nat)
      (hmem : t ∈ s.l2h ++ s.l2l) :
      QStep s { heap := (dart_tasking_taskqueue_remove s.heap s.q2 t).1
                q1 := s.q1
                q2 := (dart_tasking_taskqueue_remove s.heap s.q2 t).2
                l1h := s.l1h, l1l := s.l1l
                l2h := (ghostRemove t s.l2h s.l2l).1
                l2l := (ghostRemove t s.l2h s.l2l).2 }
  | move12 (s : TQState) :
      QStep s { heap := (dart_tasking_taskqueue_move s.heap s.q1 s.q2).1
                q1 := (dart_tasking_taskqueue_move s.heap s.q1 s.q2).2.1
                q2 := (dart_tasking_taskqueue_move s.heap s.q1 s.q2).2.2
                l1h := s.l2h ++ s.l1h, l1l := s.l2l ++ s.l1l
                l2h := [], l2l := [] }
  | move21 (s : TQState) :
      QStep s { heap := (dart_tasking_taskqueue_move s.heap s.q2 s.q1).1
                q1 := (dart_tasking_taskqueue_move s.heap s.q2 s.q1).2.2
                q2 := (dart_tasking_taskqueue_move s.heap s.q2 s.q1).2.1
                l1h := [], l1l := []
                l2h := s.l1h ++ s.l2h, l2l := s.l1l ++ s.l2l }

/-- States reachable from the two-empty-queue initial state by queue
operations. -/
def QReachable (s0 s : TQState) : Prop :=
  Relation.ReflTransGen QStep s0 s

/-- The initial state: two freshly initialized queues over an arbitrary heap. -/
def TQinit (h : TaskHeap) : TQState :=
  { heap := h
    q1 := dart_tasking_taskqueue_init
    q2 := dart_tasking_taskqueue_init
    l1h := [], l1l := [], l2h := [], l2l := [] }

/-! ## Scheduler model: `dart__tasking__yield` and `dart__tasking__create_task`
(from the tasking scheduler translation unit, `USE_UCONTEXT` variant). -/

/-- Task states (`dart_task_state_t`). -/
inductive dart_task_state_t
  | DART_TASK_NASCENT
  | DART_TASK_CREATED
  | DART_TASK_QUEUED
  | DART_TASK_DEFERRED
  | DART_TASK_RUNNING
  | DART_TASK_SUSPENDED
  | DART_TASK_BLOCKED
  | DART_TASK_DETACHED
  | DART_TASK_FINISHED
  | DART_TASK_CANCELLED
  | DART_TASK_DESTROYED
  | DART_TASK_ROOT
  | DART_TASK_DUMMY
  deriving DecidableEq, Repr

open dart_task_state_t

/-- The task flag bits manipulated by the scheduler. -/
structure dart_task_flags_t where
  has_ref : Bool        -- DART_TASK_HAS_REF
  is_inlined : Bool     -- DART_TASK_INLINE
  is_immediate : Bool   -- DART_TASK_IMMEDIATE
  is_commtask : Bool    -- DART_TASK_IS_COMMTASK
  data_allocated : Bool -- DART_TASK_DATA_ALLOCATED
  deriving DecidableEq, Repr

/-- The task fields the yield path reads and writes. -/
structure sched_task_t where
  state : dart_task_state_t
  flags : dart_task_flags_t
  prio : dart_task_prio_t
  phase : Int
  wait_handle : Option Nat
  deriving DecidableEq, Repr

/-- The scheduler state visible to `dart__tasking__yield`: the global
`threads_running` flag, the cancellation flag, the calling thread's current
task and the thread fields mutated on the yield path.
`remote_progress_calls` counts invocations of the transport progress
function so that "no remote progress" is expressible. -/
structure YieldState where
  threads_running : Bool
  cancellation_requested : Bool
  current_task : sched_task_t
  current_is_root : Bool
  thread_delay : Int
  thread_next_task : Option Nat
  remote_progress_calls : Nat
  deriving DecidableEq, Repr

/-- How a call to `dart__tasking__yield` left the scheduler; constructors
mark which control path was taken (`root_handle` and `suspend_swap` hand
control to `handle_task`/`swapcontext`, whose effects happen outside this
function). -/
inductive yield_effect
  | no_threads
  | abort_cancel
  | inline_reject
  | blocked_swap
  | no_next
  | root_handle (next : Nat)
  | suspend_swap (next : Nat)
  deriving DecidableEq, Repr

open yield_effect

/-- `dart__tasking__yield(delay)` (USE_UCONTEXT variant).  `next1`/`next2`
stand for the results of the two `next_task(thread)` calls (the scheduler
queues probed by `next_task` are not mutated by yield itself).  The returned
`Option dart_ret_t` is `none` on the cancellation path, which aborts the
task via `longjmp` and never returns. -/
def dart__tasking__yield (s : YieldState) (delay : Int)
    (next1 next2 : Option Nat) :
    yield_effect × Option dart_ret_t × YieldState :=
  if ¬ s.threads_running then
    -- threads are not running --> no tasks to yield to
    (no_threads, some DART_OK, s)
  else if s.cancellation_requested then
    -- dart__tasking__abort_current_task: longjmp, no return
    (abort_cancel, none, s)
  else if s.current_task.flags.is_inlined then
    -- we cannot yield from inlined tasks
    (inline_reject, some DART_ERR_INVAL, s)
  else if s.current_task.state = DART_TASK_BLOCKED then
    -- swap out of the blocked task; the swap returns DART_OK on success
    (blocked_swap, some DART_OK, s)
  else
    let found :=
      match next1 with
      | some n => (some n, s)
      | none =>
          -- remote progress, then retry next_task
          (next2, { s with remote_progress_calls := s.remote_progress_calls + 1 })
    match found.1 with
    | none => (no_next, some DART_OK, found.2)
    | some next =>
        let s := { found.2 with thread_delay := delay }
        if s.current_is_root then
          -- the root task is not suspended and requeued
          (root_handle next, some DART_OK, s)
        else
          let newstate :=
            if s.current_task.wait_handle = none then DART_TASK_SUSPENDED
            else DART_TASK_BLOCKED
          let s := { s with
                     current_task := { s.current_task with state := newstate }
                     thread_next_task := some next }
          (suspend_swap next, some DART_OK, s)

/-- Modelled from the spec: the `DART_PHASE_ANY` constant assigned to tasks
whose parent is not the root task; its numeric value lives in a header that
is not part of the sources. -/
def DART_PHASE_ANY : Int := -1

/-- State touched by `dart__tasking__create_task` and
`dart__tasking__enqueue_runnable`.  Queues are abstracted to lists of task
ids; `phase_runnable` is the phase predicate maintained by the matching
engine (modelled from the spec: `dart__tasking__phase_is_runnable` lives in
the phase translation unit, not part of the sources). -/
structure CreateState where
  cancellation_requested : Bool
  threads_running : Bool
  phase_current : Int
  phase_runnable : Int → Bool
  next_task_id : Nat
  created : List Nat
  parent_num_children : Int
  task_state : Nat → dart_task_state_t
  deferred_q : List Nat
  ready_q : List Nat
  ran_inline : List Nat

/-- Result of a task-creation call. -/
structure create_result where
  ret : dart_ret_t
  task : Option Nat
  s : CreateState

/-- `dart__tasking__enqueue_runnable` for a freshly created, runnable task
(`state == DART_TASK_CREATED`, dependencies resolved): transition to
`QUEUED`, defer it when its phase is not yet runnable, execute `IMMEDIATE`
tasks inline, and otherwise hand it to a hot slot / NUMA queue
(abstracted as `ready_q`). -/
def dart__tasking__enqueue_runnable (s : CreateState) (id : Nat) (phase : Int)
    (parent_is_root is_commtask is_immediate : Bool) : CreateState :=
  if s.cancellation_requested then
    { s with task_state := fun a => if a = id then DART_TASK_CANCELLED else s.task_state a }
  else if s.task_state id = DART_TASK_DEFERRED then
    s
  else
    -- queuable: CREATED and runnable --> QUEUED
    let s := { s with task_state := fun a => if a = id then DART_TASK_QUEUED else s.task_state a }
    -- defer tasks of a phase that has not been declared runnable
    if parent_is_root ∧ ¬ s.phase_runnable phase then
      { s with
        task_state := fun a => if a = id then DART_TASK_DEFERRED else s.task_state a
        deferred_q := s.deferred_q ++ [id] }
    else if is_commtask then
      -- dart_tasking_remote_handle_comm_task may take over the task;
      -- the remote engine is outside this translation unit, the task stays
      -- queued here
      { s with ready_q := id :: s.ready_q }
    else if is_immediate then
      -- execute immediate tasks directly as inline tasks
      { s with ran_inline := id :: s.ran_inline
               task_state := fun a => if a = id then DART_TASK_FINISHED else s.task_state a }
    else
      { s with ready_q := id :: s.ready_q }

/-- `dart__tasking__create_task`: drop the task during cancellation (still
returning `DART_OK`), start threads on first use, allocate/initialize the
task, register dependencies (their verdict is the oracle `deps_runnable`),
and enqueue the task when runnable. -/
def dart__tasking__create_task (s : CreateState) (prio : dart_task_prio_t)
    (parent_prio : dart_task_prio_t) (noyield want_ref parent_is_root : Bool)
    (deps_runnable : Bool) : create_result :=
  if s.cancellation_requested then
    -- ignoring task creation while canceling tasks
    { ret := DART_OK, task := none, s := s }
  else
    -- start threads upon first task creation
    let s := if ¬ s.threads_running then { s with threads_running := true } else s
    -- create_task(): allocate and initialize the descriptor
    let id := s.next_task_id
    let phase := if parent_is_root then s.phase_current else DART_PHASE_ANY
    let _is_inlined := (prio = PRIO_INLINE) ∨ noyield
    let is_immediate := prio = PRIO_INLINE
    let _eff_prio :=
      match prio with
      | PRIO_PARENT => parent_prio
      | PRIO_INLINE => PRIO_HIGH
      | p => p
    let s := { s with
               next_task_id := id + 1
               created := id :: s.created
               task_state := fun a => if a = id then DART_TASK_NASCENT else s.task_state a
               parent_num_children := s.parent_num_children + 1 }
    -- dart_tasking_datadeps_handle_task(task, deps, ndeps), then
    -- task->state = DART_TASK_CREATED and the runnability check
    let s := { s with
               task_state := fun a => if a = id then DART_TASK_CREATED else s.task_state a }
    let s :=
      if deps_runnable then
        dart__tasking__enqueue_runnable s id phase parent_is_root false is_immediate
      else s
    { ret := DART_OK, task := if want_ref then some id else none, s := s }

/-! ## Context manager (`dart_tasking_context.c`, `USE_UCONTEXT` variant). -/

/-- `DEFAULT_TASK_STACK_SIZE`: 2 MiB (`1<<21`). -/
def DEFAULT_TASK_STACK_SIZE : Nat := 2 ^ 21

/-- `dart__tasking__context_init`: start from the default stack size,
override it with `DART_TASKSTACKSIZE` when set (`env__size` returns `-1`
when unset, modelled as `none`), and raise it to the page size when
smaller.  Returns the resulting `task_stack_size`. -/
def dart__tasking__context_init (page_size : Nat) (env_stack_size : Option Nat) :
    Nat :=
  let task_stack_size := DEFAULT_TASK_STACK_SIZE
  let task_stack_size :=
    match env_stack_size with
    | some v => v
    | none => task_stack_size
  if task_stack_size < page_size then page_size else task_stack_size

/-- The spec's reading of the `TASKSTACKSIZE` handling: the user-provided
byte count rounded up to a multiple of the page size. -/
def spec_stack_size (page_size : Nat) (env_stack_size : Option Nat) : Nat :=
  match env_stack_size with
  | some v => ((v + page_size - 1) / page_size) * page_size
  | none => DEFAULT_TASK_STACK_SIZE

/-- Context-manager state: the `owner` field of every allocated
`context_list_t` and the per-thread free lists (`thread->ctxlist`). -/
structure CtxState where
  ctx_owner : Nat → Nat
  ctxlist : Nat → List Nat
  next_ctx : Nat

/-- `dart__tasking__context_allocate`: allocate a fresh context entry and
record the calling thread as its owner (`ctxlist->owner =
dart__tasking__current_thread()`). -/
def dart__tasking__context_allocate (s : CtxState) (caller : Nat) :
    Nat × CtxState :=
  let id := s.next_ctx
  (id, { s with
         next_ctx := id + 1
         ctx_owner := fun a => if a = id then caller else s.ctx_owner a })

/-- `dart__tasking__context_create`: reuse an entry from the calling
thread's free list, or allocate a new one. -/
def dart__tasking__context_create (s : CtxState) (caller : Nat) :
    Nat × CtxState :=
  match s.ctxlist caller with
  | c :: rest =>
      (c, { s with ctxlist := fun a => if a = caller then rest else s.ctxlist a })
  | [] => dart__tasking__context_allocate s caller

/-- `dart__tasking__context_release`: push the entry back onto the free
list of the thread stored in `ctxlist->owner` – not the caller's. -/
def dart__tasking__context_release (s : CtxState) (ctx : Nat) : CtxState :=
  let owner := s.ctx_owner ctx
  { s with ctxlist := fun a => if a = owner then ctx :: s.ctxlist a else s.ctxlist a }

/-! ## Copy-in memory pool (`dart_tasking_copyin.c`). -/

/-- `MEMPOOL_MAGIC_NUM`. -/
def MEMPOOL_MAGIC_NUM : Nat := 0xDEADBEEF

/-- `struct mem_pool_elem`: the guard word and the back reference to the
owning pool.  Pools are uniquely determined by their size (they are created
at most once per size under `mpool_lock` and never destroyed), so the
back-pointer is modelled by the pool's size key. -/
structure mem_pool_elem_t where
  magic : Nat
  mpool : Nat
  deriving DecidableEq, Repr

/-- `struct mem_pool`: a size class with its freelist stack of elements. -/
structure mem_pool_t where
  size : Nat
  elems : List Nat
  deriving DecidableEq, Repr

/-- The global pool list `mem_pool`, the element heap, and the allocator
counter for fresh elements. -/
structure MempoolState where
  mem_pool : List mem_pool_t
  elem_data : Nat → mem_pool_elem_t
  next_elem : Nat

/-- `find_mem_pool`: first pool of the requested size. -/
def find_mem_pool (pools : List mem_pool_t) (size : Nat) : Option mem_pool_t :=
  match pools with
  | [] => none
  | p :: rest => if size = p.size then some p else find_mem_pool rest size

/-- Pop from the freelist of the pool of the given size. -/
def mempool_pop (pools : List mem_pool_t) (size : Nat) :
    Option Nat × List mem_pool_t :=
  match pools with
  | [] => (none, [])
  | p :: rest =>
      if size = p.size then
        match p.elems with
        | [] => (none, p :: rest)
        | e :: es => (some e, { p with elems := es } :: rest)
      else
        let r := mempool_pop rest size
        (r.1, p :: r.2)

/-- Push onto the freelist of the pool of the given size. -/
def mempool_push (pools : List mem_pool_t) (size : Nat) (e : Nat) :
    List mem_pool_t :=
  match pools with
  | [] => []
  | p :: rest =>
      if size = p.size then { p with elems := e :: p.elems } :: rest
      else p :: mempool_push rest size e

/-- `allocate_from_mempool`: find (or create, double-checked under
`mpool_lock`) the pool of this size, pop its freelist, and fall back to
allocating a fresh element stamped with the magic word and the pool
back-pointer. -/
def allocate_from_mempool (s : MempoolState) (size : Nat) : Nat × MempoolState :=
  let pools :=
    if (find_mem_pool s.mem_pool size).isSome then s.mem_pool
    else { size := size, elems := [] } :: s.mem_pool
  let r := mempool_pop pools size
  match r.1 with
  | some e => (e, { s with mem_pool := r.2 })
  | none =>
      let e := s.next_elem
      (e, { s with
            mem_pool := r.2
            next_elem := e + 1
            elem_data := fun a =>
              if a = e then { magic := MEMPOOL_MAGIC_NUM, mpool := size }
              else s.elem_data a })

/-- `return_to_mempool`: check the magic word (`DART_ASSERT_MSG` aborts on
corruption, modelled as `none`) and push the element back onto its owning
pool's freelist. -/
def return_to_mempool (s : MempoolState) (e : Nat) : Option MempoolState :=
  if (s.elem_data e).magic = MEMPOOL_MAGIC_NUM then
    some { s with mem_pool := mempool_push s.mem_pool ((s.elem_data e).mpool) e }
  else
    none

/-- Dependency types (`dart_task_deptype_t`). -/
inductive dart_task_deptype_t
  | DART_DEP_IN
  | DART_DEP_OUT
  | DART_DEP_INOUT
  | DART_DEP_COPYIN
  | DART_DEP_COPYIN_R
  | DART_DEP_COPYIN_OUT
  | DART_DEP_DELAYED_IN
  | DART_DEP_DIRECT
  deriving DecidableEq, Repr

open dart_task_deptype_t

/-- The copy-in payload of a dependency: destination buffer and size. -/
structure dep_copyin_t where
  dest : Option Nat
  size : Nat
  deriving DecidableEq, Repr

/-- The fields of a `dart_dephash_elem_t` used by the copy-in engine: the
dependency record and the optional destructor hook (the only destructor
ever installed is `dart_tasking_copyin_release_mem`, so a `Bool` records
its presence). -/
structure dart_dephash_elem_t where
  deptype : dart_task_deptype_t
  copyin : dep_copyin_t
  has_dtor : Bool
  deriving DecidableEq, Repr

/-- `dart_tasking_copyin_prepare_dep`: walk the task's owned dependencies
for the first `DART_DEP_COPYIN_OUT` record (`DART_ASSERT` aborts when there
is none, modelled as `none`); when its destination is null, allocate a
buffer of the dependency's size from the memory pool and install the
destructor.  Returns the updated dependency list, the dependency found, and
the updated pool state. -/
def dart_tasking_copyin_prepare_dep (s : MempoolState) :
    List dart_dephash_elem_t →
    Option (List dart_dephash_elem_t × dart_dephash_elem_t × MempoolState)
  | [] => none
  | d :: rest =>
      if d.deptype = DART_DEP_COPYIN_OUT then
        if d.copyin.dest = none then
          let r := allocate_from_mempool s d.copyin.size
          let d2 := { d with
                      copyin := { d.copyin with dest := some r.1 }
                      has_dtor := true }
          some (d2 :: rest, d2, r.2)
        else
          some (d :: rest, d, s)
      else
        (dart_tasking_copyin_prepare_dep s rest).map
          (fun r => (d :: r.1, r.2.1, r.2.2))

/-- `dart_tasking_copyin_release_mem` (the destructor installed on the
dependency): assert a destination is present, return the buffer to its
memory pool, and clear the destination pointer. -/
def dart_tasking_copyin_release_mem (s : MempoolState)
    (dep : dart_dephash_elem_t) : Option (dart_dephash_elem_t × MempoolState) :=
  match dep.copyin.dest with
  | none => none
  | some mem =>
      (return_to_mempool s mem).map
        (fun s2 => ({ dep with copyin := { dep.copyin with dest := none } }, s2))

/-- Pool/element coherence: pool sizes are distinct keys, and every pooled
element carries the magic word, the correct back-pointer, and an id below
the allocation counter. -/
def MempoolInv (s : MempoolState) : Prop :=
  (s.mem_pool.map mem_pool_t.size).Nodup ∧
  ∀ p ∈ s.mem_pool, ∀ e ∈ p.elems,
    (s.elem_data e).magic = MEMPOOL_MAGIC_NUM ∧
    (s.elem_data e).mpool = p.size ∧ e < s.next_elem

/-! ## Active-message queue, sendrecv flavour (MPI transport glue). -/

/-- The counters and mode flags of `struct dart_amsgq_impl_data` that the
send/process control flow depends on.  Message buffers and MPI request
arrays are kept abstract: the compaction loop in
`amsgq_test_sendreqs` only rearranges them and never affects return
codes or `send_tailpos`. -/
structure dart_amsgq_impl_data where
  send_tailpos : Nat
  msg_count : Nat
  direct_send : Bool
  sync_send : Bool
  send_count : Nat → Int

/-- `amsgq_test_sendreqs`: `MPI_Testsome` on the outstanding send
requests; `outcount` is its result.  With no completions the caller is told
to come back later (`DART_ERR_AGAIN`); otherwise the ring bookkeeping is
updated (all done: reset to 0; otherwise compact and subtract). -/
def amsgq_test_sendreqs (q : dart_amsgq_impl_data) (outcount : Nat) :
    dart_ret_t × dart_amsgq_impl_data :=
  if outcount > 0 then
    if outcount = q.send_tailpos then
      (DART_OK, { q with send_tailpos := 0 })
    else
      (DART_OK, { q with send_tailpos := q.send_tailpos - outcount })
  else
    (DART_ERR_AGAIN, q)

/-- `dart_amsg_sendrecv_trysend`: in buffered mode, make room in the send
ring when it is full (reporting `DART_ERR_AGAIN` when nothing completed),
then issue `MPI_Issend`/`MPI_Isend`; in direct mode issue
`MPI_Ssend`/`MPI_Send`.  A transport result other than `MPI_SUCCESS` is
reported as `DART_ERR_AGAIN`.  `outcount` and `mpi_success` are the
transport oracle. -/
def dart_amsg_sendrecv_trysend (q : dart_amsgq_impl_data) (target : Nat)
    (outcount : Nat) (mpi_success : Bool) :
    dart_ret_t × dart_amsgq_impl_data :=
  if ¬ q.direct_send then
    let tested :=
      if q.send_tailpos = q.msg_count then amsgq_test_sendreqs q outcount
      else (DART_OK, q)
    if tested.1 ≠ DART_OK then
      (tested.1, tested.2)
    else
      let q := tested.2
      let q := { q with send_tailpos := q.send_tailpos + 1 }
      let q :=
        if ¬ q.sync_send then
          { q with send_count := fun a =>
              if a = target then q.send_count a + 1 else q.send_count a }
        else q
      if ¬ mpi_success then (DART_ERR_AGAIN, q) else (DART_OK, q)
  else
    let q :=
      if ¬ q.sync_send then
        { q with send_count := fun a =>
            if a = target then q.send_count a + 1 else q.send_count a }
      else q
    if ¬ mpi_success then (DART_ERR_AGAIN, q) else (DART_OK, q)

/-- The receive-dispatch loop of `amsg_sendrecv_process_internal`: each
entry of `rounds` is the `outcount` of one `MPI_Testsome` over the posted
receives; the loop repeats while `blocking` holds and messages were found.
Returns the number of dispatched messages. -/
def amsg_process_rounds (blocking : Bool) : List Nat → Nat
  | [] => 0
  | n :: rest => n + (if blocking ∧ n > 0 then amsg_process_rounds blocking rest else 0)

/-- `amsg_sendrecv_process_internal`: without the lock, a non-blocking call
merely tries the processing mutex and reports `DART_ERR_AGAIN` when it is
busy; otherwise the receive loop runs. -/
def amsg_sendrecv_process_internal (_q : dart_amsgq_impl_data)
    (blocking has_lock trylock_ok : Bool) (rounds : List Nat) :
    dart_ret_t × Nat :=
  if ¬ has_lock then
    if ¬ blocking then
      if ¬ trylock_ok then
        (DART_ERR_AGAIN, 0)
      else
        (DART_OK, amsg_process_rounds blocking rounds)
    else
      (DART_OK, amsg_process_rounds blocking rounds)
  else
    (DART_OK, amsg_process_rounds blocking rounds)

/-- `dart_amsg_sendrecv_process`: the non-blocking entry point. -/
def dart_amsg_sendrecv_process (q : dart_amsgq_impl_data)
    (trylock_ok : Bool) (rounds : List Nat) : dart_ret_t × Nat :=
  amsg_sendrecv_process_internal q false false trylock_ok rounds

/-- `h'` agrees with `h` outside the footprint `S`. -/
def heapFrame (h h' : TaskHeap) (S : List Nat) : Prop :=
  ∀ a, a ∉ S → h' a = h a

/-- The list-level effect of `requeue_task`: front insertion for zero delay,
`ghostInsert` (index `min(len, delay+1)` within the priority deque) for
positive delay, back insertion for negative delay. -/
def ghostRequeue (h : TaskHeap) (t : Nat) (delay : Int) (lh ll : List Nat) :
    List Nat × List Nat :=
  if delay = 0 then ghostPush h t lh ll
  else if delay > 0 then ghostInsert h t delay.toNat lh ll
  else ghostPushback h t lh ll

/-! ### Concrete instances used to exercise the theorems -/

/-- A heap of isolated default-priority tasks. -/
def exHeap0 : TaskHeap :=
  fun _ => { prev := none, next := none, prio := PRIO_DEFAULT }

/-- A heap whose tasks 1, 2, 3 form a doubly linked chain (all of default
priority). -/
def exHeapC1 : TaskHeap := fun a =>
  if a = 1 then { prev := none, next := some 2, prio := PRIO_DEFAULT }
  else if a = 2 then { prev := some 1, next := some 3, prio := PRIO_DEFAULT }
  else if a = 3 then { prev := some 2, next := none, prio := PRIO_DEFAULT }
  else { prev := none, next := none, prio := PRIO_DEFAULT }

/-- A queue whose low-priority deque holds the chain 1-2-3. -/
def exQueueC1 : dart_taskqueue_t :=
  { highprio := { head := none, tail := none }
    lowprio := { head := some 1, tail := some 3 } }

/-- A heap with the single high-priority task 10; every other task has
default priority. -/
def exHeapC4 : TaskHeap := fun a =>
  if a = 10 then { prev := none, next := none, prio := PRIO_HIGH }
  else { prev := none, next := none, prio := PRIO_DEFAULT }

/-- A queue holding high-priority task 10 and low-priority task 20. -/
def exQueueC4 : dart_taskqueue_t :=
  { highprio := { head := some 10, tail := some 10 }
    lowprio := { head := some 20, tail := some 20 } }

/-- The state after pushing task 1 onto the first queue of the initial
two-queue state. -/
def exStep1 : TQState :=
  { heap := (dart_tasking_taskqueue_push exHeap0 dart_tasking_taskqueue_init 1).1
    q1 := (dart_tasking_taskqueue_push exHeap0 dart_tasking_taskqueue_init 1).2
    q2 := dart_tasking_taskqueue_init
    l1h := (ghostPush exHeap0 1 [] []).1
    l1l := (ghostPush exHeap0 1 [] []).2
    l2h := [], l2l := [] }

/-- An empty memory-pool state. -/
def exMempool0 : MempoolState :=
  { mem_pool := []
    elem_data := fun _ => { magic := 0, mpool := 0 }
    next_elem := 0 }

/-- A copy-in output dependency of size 16 with no destination buffer. -/
def exDepC8 : dart_dephash_elem_t :=
  { deptype := DART_DEP_COPYIN_OUT
    copyin := { dest := none, size := 16 }
    has_dtor := false }

/-- A running scheduler whose current task carries the INLINE flag. -/
def exYieldInline : YieldState :=
  { threads_running := true, cancellation_requested := false
    current_task := { state := DART_TASK_RUNNING
                      flags := { has_ref := false, is_inlined := true
                                 is_immediate := false, is_commtask := false
                                 data_allocated := false }
                      prio := PRIO_DEFAULT, phase := 0, wait_handle := none }
    current_is_root := false, thread_delay := 0
    thread_next_task := none, remote_progress_calls := 0 }

/-- A scheduler state before any worker thread has been started. -/
def exYieldNT : YieldState :=
  { threads_running := false, cancellation_requested := false
    current_task := { state := DART_TASK_ROOT
                      flags := { has_ref := false, is_inlined := false
                                 is_immediate := false, is_commtask := false
                                 data_allocated := false }
                      prio := PRIO_DEFAULT, phase := 0, wait_handle := none }
    current_is_root := true, thread_delay := 0
    thread_next_task := none, remote_progress_calls := 0 }

/-- A creation state in which the current phase has not been declared
runnable. -/
def exCreateDefer : CreateState :=
  { cancellation_requested := false
    threads_running := true
    phase_current := 3
    phase_runnable := fun _ => false
    next_task_id := 7
    created := []
    parent_num_children := 0
    task_state := fun _ => DART_TASK_ROOT
    deferred_q := []
    ready_q := []
    ran_inline := [] }

/-- A context-manager state with one allocated entry 0 owned by thread 2. -/
def exCtx : CtxState :=
  { ctx_owner := fun _ => 2
    ctxlist := fun _ => []
    next_ctx := 1 }

/-- A buffered active-message ring that is full (capacity 4). -/
def exAmsgFull : dart_amsgq_impl_data :=
  { send_tailpos := 4, msg_count := 4
    direct_send := false, sync_send := false
    send_count := fun _ => 0 }

/-! ## Chain lemmas -/

theorem setNext_self (h : TaskHeap) (t : Nat) (v : Option Nat) :
    (setNext h t v) t = { h t with next := v } := by
  simp [setNext]

theorem setPrev_self (h : TaskHeap) (t : Nat) (v : Option Nat) :
    (setPrev h t v) t = { h t with prev := v } := by
  simp [setPrev]

theorem setNext_other (h : TaskHeap) {a t : Nat} (v : Option Nat) (hne : a ≠ t) :
    (setNext h t v) a = h a := by
  simp [setNext, hne]

theorem setPrev_other (h : TaskHeap) {a t : Nat} (v : Option Nat) (hne : a ≠ t) :
    (setPrev h t v) a = h a := by
  simp [setPrev, hne]

theorem prev_setNext (h : TaskHeap) (a t : Nat) (v : Option Nat) :
    ((setNext h t v) a).prev = (h a).prev := by
  simp only [setNext]
  split <;> rfl

theorem next_setPrev (h : TaskHeap) (a t : Nat) (v : Option Nat) :
    ((setPrev h t v) a).next = (h a).next := by
  simp only [setPrev]
  split <;> rfl

theorem prio_setNext (h : TaskHeap) (a t : Nat) (v : Option Nat) :
    ((setNext h t v) a).prio = (h a).prio := by
  simp only [setNext]
  split <;> rfl

theorem prio_setPrev (h : TaskHeap) (a t : Nat) (v : Option Nat) :
    ((setPrev h t v) a).prio = (h a).prio := by
  simp only [setPrev]
  split <;> rfl

theorem next_setNext_self (h : TaskHeap) (t : Nat) (v : Option Nat) :
    ((setNext h t v) t).next = v := by
  simp [setNext]

theorem prev_setPrev_self (h : TaskHeap) (t : Nat) (v : Option Nat) :
    ((setPrev h t v) t).prev = v := by
  simp [setPrev]

theorem segb_congr {h h' : TaskHeap} :
    ∀ {l : List Nat}, (∀ x ∈ l, h' x = h x) →
    ∀ prv cur stop, segb h' prv cur l stop = segb h prv cur l stop := by
  intro l
  induction l with
  | nil => intro _ prv cur stop; rfl
  | cons x l ih =>
      intro hh prv cur stop
      have hx : h' x = h x := hh x (by simp)
      have ihx := ih (fun y hy => hh y (by simp [hy])) (some x) ((h x).next) stop
      simp [segb, hx, ihx]

theorem segb_head {h : TaskHeap} {l : List Nat} {prv cur stop : Option Nat}
    (hs : segb h prv cur l stop = true) : cur = headPtr l stop := by
  cases l with
  | nil => simpa [segb, headPtr] using hs
  | cons x l =>
      simp only [segb, Bool.and_eq_true, beq_iff_eq] at hs
      simpa [headPtr] using hs.1.1

theorem segb_nil_iff {h : TaskHeap} {prv cur stop : Option Nat} :
    segb h prv cur [] stop = true ↔ cur = stop := by
  simp [segb]

theorem segb_cons_iff {h : TaskHeap} {prv cur stop : Option Nat} {x : Nat}
    {l : List Nat} :
    segb h prv cur (x :: l) stop = true ↔
      cur = some x ∧ (h x).prev = prv ∧ segb h (some x) ((h x).next) l stop = true := by
  simp [segb, and_assoc]

theorem lastPtr_cons (prv : Option Nat) (x : Nat) (l : List Nat) :
    lastPtr prv (x :: l) = lastPtr (some x) l := by
  cases l with
  | nil => rfl
  | cons y l =>
      cases hgl : (y :: l).getLast? with
      | none => simp at hgl
      | some z => simp [lastPtr, List.getLast?_cons_cons, hgl]

theorem segb_append {h : TaskHeap} :
    ∀ (l₁ l₂ : List Nat) (prv cur stop : Option Nat),
    segb h prv cur (l₁ ++ l₂) stop =
      (segb h prv cur l₁ (headPtr l₂ stop) &&
       segb h (lastPtr prv l₁) (headPtr l₂ stop) l₂ stop) := by
  intro l₁
  induction l₁ with
  | nil =>
      intro l₂ prv cur stop
      cases l₂ with
      | nil => simp [segb, headPtr, lastPtr]
      | cons y l₂ =>
          simp only [List.nil_append, segb, headPtr, lastPtr, List.getLast?_nil]
          cases hc : (cur == some y) <;> simp [segb, hc]
  | cons x l₁ ih =>
      intro l₂ prv cur stop
      simp only [List.cons_append, segb, lastPtr_cons, List.append_eq]
      rw [ih l₂ (some x) ((h x).next) stop]
      cases hc : (cur == some x) <;> simp [hc, Bool.and_assoc]

theorem deque_walk_eq {h : TaskHeap} :
    ∀ (l : List Nat) (prv cur : Option Nat),
    segb h prv cur l none = true → ∀ n : Nat, deque_walk h cur n = l[n]? := by
  intro l
  induction l with
  | nil =>
      intro prv cur hs n
      have : cur = none := by simpa [segb] using hs
      subst this
      cases n <;> simp [deque_walk]
  | cons x l ih =>
      intro prv cur hs n
      simp only [segb, Bool.and_eq_true, beq_iff_eq] at hs
      obtain ⟨⟨hcur, _⟩, hrec⟩ := hs
      subst hcur
      cases n with
      | zero => simp [deque_walk]
      | succ n =>
          simp only [deque_walk]
          rw [ih (some x) ((h x).next) hrec n]
          simp

theorem segb_retarget {h h' : TaskHeap} :
    ∀ (l : List Nat) (prv cur stop v : Option Nat) (tl : Nat),
    segb h prv cur l stop = true → l.getLast? = some tl → l.Nodup →
    (∀ z ∈ l, z ≠ tl → h' z = h z) →
    (h' tl).prev = (h tl).prev → (h' tl).next = v →
    segb h' prv cur l v = true := by
  intro l
  induction l with
  | nil => intro prv cur stop v tl hs hlast; simp at hlast
  | cons x l ih =>
      intro prv cur stop v tl hs hlast hnd hagree hprev hnext
      simp only [segb, Bool.and_eq_true, beq_iff_eq] at hs
      obtain ⟨⟨hcur, hpx⟩, hrec⟩ := hs
      cases l with
      | nil =>
          simp only [List.getLast?_singleton, Option.some.injEq] at hlast
          subst hlast
          rw [segb_cons_iff]
          exact ⟨hcur, by rw [hprev, hpx], by rw [segb_nil_iff, hnext]⟩
      | cons y l' =>
          have hlast2 : (y :: l').getLast? = some tl := by
            rwa [List.getLast?_cons_cons] at hlast
          have htl_mem : tl ∈ y :: l' :=
            List.mem_of_mem_getLast? (by simp [hlast2])
          have hxne : x ≠ tl := by
            intro hEq
            subst hEq
            exact (List.nodup_cons.mp hnd).1 htl_mem
          have hx : h' x = h x := hagree x (by simp) hxne
          rw [segb_cons_iff]
          refine ⟨hcur, by rw [hx, hpx], ?_⟩
          rw [hx]
          exact ih (some x) ((h x).next) stop v tl hrec hlast2
            (List.nodup_cons.mp hnd).2
            (fun z hz hzne => hagree z (by simp [hz]) hzne) hprev hnext

/-! ## Refinement of the deque operations by list operations -/

theorem task_deque_push_refines {h : TaskHeap} {d : task_deque} {l : List Nat}
    {t : Nat} (hr : dequeRepr h d l) (hf : t ∉ l)
    (hp : (h t).prev = none) (hn : (h t).next = none) :
    dequeRepr (task_deque_push h d t).1 (task_deque_push h d t).2 (t :: l) ∧
      heapFrame h (task_deque_push h d t).1 (t :: l) := by
  obtain ⟨hs, htl, hnd⟩ := hr
  have hhead := segb_head hs
  cases hd : d.head with
  | none =>
      have hlnil : l = [] := by
        cases l with
        | nil => rfl
        | cons x l => rw [hd] at hhead; simp [headPtr] at hhead
      subst hlnil
      refine ⟨⟨?_, ?_, ?_⟩, ?_⟩
      · simp [task_deque_push, hd, segb_cons_iff, segb_nil_iff, hp, hn]
      · simp [task_deque_push, hd]
      · simp
      · intro a _; simp [task_deque_push, hd]
  | some hdv =>
      obtain ⟨l', hl⟩ : ∃ l', l = hdv :: l' := by
        cases l with
        | nil => rw [hd] at hhead; simp [headPtr] at hhead
        | cons x l =>
            rw [hd] at hhead; simp [headPtr] at hhead
            exact ⟨l, by rw [hhead]⟩
      subst hl
      have htne : t ≠ hdv := by intro hEq; exact hf (hEq ▸ List.mem_cons_self ..)
      rw [segb_cons_iff] at hs
      obtain ⟨-, hpd, hrec⟩ := hs
      -- the two heap writes of the nonempty branch
      set h2 := setPrev (setNext h t (some hdv)) hdv (some t) with hh2
      have hpush : task_deque_push h d t = (h2, { d with head := some t }) := by
        simp [task_deque_push, hd, hh2]
      have h2t : h2 t = { h t with next := some hdv } := by
        rw [hh2, setPrev_other _ _ htne, setNext_self]
      have h2hd : h2 hdv = { (setNext h t (some hdv)) hdv with prev := some t } := by
        rw [hh2, setPrev_self]
      have h2other : ∀ a, a ≠ t → a ≠ hdv → h2 a = h a := by
        intro a hat hahd
        rw [hh2, setPrev_other _ _ hahd, setNext_other _ _ hat]
      rw [hpush]
      refine ⟨⟨?_, ?_, ?_⟩, ?_⟩
      · show segb h2 none (some t) (t :: hdv :: l') none = true
        rw [segb_cons_iff]
        refine ⟨rfl, by rw [h2t]; exact hp, ?_⟩
        have h2tn : (h2 t).next = some hdv := by rw [h2t]
        rw [h2tn, segb_cons_iff]
        refine ⟨rfl, by rw [h2hd], ?_⟩
        have h2hdn : (h2 hdv).next = (h hdv).next := by
          rw [h2hd]; simp [setNext_other _ _ htne.symm]
        rw [h2hdn]
        rw [@segb_congr h h2 _ ?_ (some hdv) ((h hdv).next) none]
        · exact hrec
        · intro z hz
          have hznd := List.nodup_cons.mp hnd
          exact h2other z (fun hEq => hf (hEq ▸ by simp [hz]))
            (fun hEq => hznd.1 (hEq ▸ hz))
      · simpa using htl
      · exact List.nodup_cons.mpr ⟨hf, hnd⟩
      · intro a ha
        simp only [List.mem_cons, not_or] at ha
        exact h2other a ha.1 (fun hEq => ha.2.1 (by simp [hEq]))


theorem task_deque_pushback_refines {h : TaskHeap} {d : task_deque} {l : List Nat}
    {t : Nat} (hr : dequeRepr h d l) (hf : t ∉ l)
    (hp : (h t).prev = none) (hn : (h t).next = none) :
    dequeRepr (task_deque_pushback h d t).1 (task_deque_pushback h d t).2 (l ++ [t]) ∧
      heapFrame h (task_deque_pushback h d t).1 (t :: l) := by
  obtain ⟨hs, htl, hnd⟩ := hr
  have hhead := segb_head hs
  cases l with
  | nil =>
      have hd : d.head = none := by simpa [headPtr] using hhead
      refine ⟨⟨?_, ?_, ?_⟩, ?_⟩
      · simp [task_deque_pushback, hd, segb_cons_iff, segb_nil_iff, hp, hn]
      · simp [task_deque_pushback, hd]
      · simp
      · intro a _; simp [task_deque_pushback, hd]
  | cons x l' =>
      have hd : d.head = some x := by simpa [headPtr] using hhead
      cases hgl : (x :: l').getLast? with
      | none => simp at hgl
      | some tl =>
          have hdt : d.tail = some tl := by rw [htl, hgl]
          have htlmem : tl ∈ x :: l' := List.mem_of_mem_getLast? (by simp [hgl])
          have htne : t ≠ tl := by intro hEq; exact hf (hEq ▸ htlmem)
          set h2 := setNext (setPrev h t (some tl)) tl (some t) with hh2
          have hpushb : task_deque_pushback h d t = (h2, { d with tail := some t }) := by
            simp [task_deque_pushback, hd, hdt, hh2]
          have h2t : h2 t = { h t with prev := some tl } := by
            rw [hh2, setNext_other _ _ htne, setPrev_self]
          have h2tl_next : (h2 tl).next = some t := by
            rw [hh2, next_setNext_self]
          have h2tl_prev : (h2 tl).prev = (h tl).prev := by
            rw [hh2, prev_setNext, setPrev_other _ _ htne.symm]
          have h2other : ∀ a, a ≠ t → a ≠ tl → h2 a = h a := by
            intro a hat hatl
            rw [hh2, setNext_other _ _ hatl, setPrev_other _ _ hat]
          rw [hpushb]
          refine ⟨⟨?_, ?_, ?_⟩, ?_⟩
          · show segb h2 none d.head ((x :: l') ++ [t]) none = true
            rw [segb_append]
            have hfac1 : segb h2 none d.head (x :: l') (headPtr [t] none) = true := by
              refine segb_retarget (x :: l') none d.head none (some t) tl hs hgl hnd
                ?_ h2tl_prev (by simpa [headPtr] using h2tl_next)
              intro z hz hzne
              exact h2other z (fun hEq => hf (hEq ▸ hz)) hzne
            have hfac2 : segb h2 (lastPtr none (x :: l')) (headPtr [t] none) [t] none = true := by
              rw [headPtr, segb_cons_iff]
              refine ⟨rfl, ?_, ?_⟩
              · rw [h2t]
                simp [lastPtr, hgl]
              · rw [segb_nil_iff, h2t]
                exact hn
            rw [hfac1, hfac2]
            rfl
          · show some t = ((x :: l') ++ [t]).getLast?
            rw [List.getLast?_concat]
          · show ((x :: l') ++ [t]).Nodup
            exact (List.perm_append_singleton t (x :: l')).symm.nodup
              (List.nodup_cons.mpr ⟨hf, hnd⟩)
          · intro a ha
            simp only [List.mem_cons, not_or] at ha
            exact h2other a ha.1 (fun hEq => hf (by rw [← hEq] at htlmem; exact absurd htlmem (by simp [ha])))

theorem task_deque_pop_refines {h : TaskHeap} {d : task_deque} {l : List Nat}
    (hr : dequeRepr h d l) :
    (task_deque_pop h d).1 = l.head? ∧
    dequeRepr (task_deque_pop h d).2.1 (task_deque_pop h d).2.2 l.tail ∧
    heapFrame h (task_deque_pop h d).2.1 l := by
  obtain ⟨hs, htl, hnd⟩ := hr
  have hhead := segb_head hs
  cases l with
  | nil =>
      have hd : d.head = none := by simpa [headPtr] using hhead
      have hdt : d.tail = none := by simpa using htl
      refine ⟨?_, ⟨?_, ?_, ?_⟩, ?_⟩ <;>
        simp [task_deque_pop, hd, hdt, segb_nil_iff, heapFrame]
  | cons x l' =>
      have hd : d.head = some x := by simpa [headPtr] using hhead
      rw [segb_cons_iff] at hs
      obtain ⟨-, hpx, hrec⟩ := hs
      cases l' with
      | nil =>
          have hdt : d.tail = some x := by simpa using htl
          have heq : d.head = d.tail := by rw [hd, hdt]
          have hxn : (h x).next = none := by
            rw [segb_nil_iff] at hrec; exact hrec
          refine ⟨?_, ⟨?_, ?_, ?_⟩, ?_⟩
          · simp [task_deque_pop, hd, hdt]
          · simp [task_deque_pop, hd, hdt, segb_nil_iff]
          · simp [task_deque_pop, hd, hdt]
          · simp [task_deque_pop, hd, hdt]
          · intro a ha
            simp only [List.mem_cons, List.not_mem_nil, or_false] at ha
            simp [task_deque_pop, hd, hdt, setPrev_other _ _ ha, setNext_other _ _ ha]
      | cons y l'' =>
          cases hgl : (y :: l'').getLast? with
          | none => simp at hgl
          | some tl =>
          have hdt : d.tail = some tl := by
            rw [htl, List.getLast?_cons_cons, hgl]
          have htlmem : tl ∈ y :: l'' := List.mem_of_mem_getLast? (by simp [hgl])
          have hxtl : x ≠ tl := fun hEq => (List.nodup_cons.mp hnd).1 (hEq ▸ htlmem)
          have hne : ¬ (some x = d.tail) := by
            rw [hdt]; simp [hxtl]
          rw [segb_cons_iff] at hrec
          obtain ⟨hxy, hpy, hrec2⟩ := hrec
          have hxyne : x ≠ y := fun hEq => (List.nodup_cons.mp hnd).1 (hEq ▸ by simp)
          set h3 := setPrev (setNext (setPrev h y none) x none) x none with hh3
          have hpop : task_deque_pop h d =
              (some x, h3, { d with head := some y }) := by
            simp [task_deque_pop, hd, hne, hxy, hh3]
          have h3y : h3 y = { h y with prev := none } := by
            rw [hh3, setPrev_other _ _ hxyne.symm, setNext_other _ _ hxyne.symm,
              setPrev_self]
          have h3other : ∀ a, a ≠ x → a ≠ y → h3 a = h a := by
            intro a hax hay
            rw [hh3, setPrev_other _ _ hax, setNext_other _ _ hax,
              setPrev_other _ _ hay]
          rw [hpop]
          refine ⟨rfl, ⟨?_, ?_, ?_⟩, ?_⟩
          · show segb h3 none (some y) (y :: l'') none = true
            rw [segb_cons_iff]
            refine ⟨rfl, by rw [h3y], ?_⟩
            have h3yn : (h3 y).next = (h y).next := by rw [h3y]
            rw [h3yn]
            rw [@segb_congr h h3 _ ?_ (some y) ((h y).next) none]
            · exact hrec2
            · intro z hz
              have hnd2 := List.nodup_cons.mp hnd
              have hnd3 := List.nodup_cons.mp hnd2.2
              exact h3other z (fun hEq => hnd2.1 (hEq ▸ by simp [hz]))
                (fun hEq => hnd3.1 (hEq ▸ hz))
          · show d.tail = (y :: l'').getLast?
            rw [hdt, hgl]
          · exact (List.nodup_cons.mp hnd).2
          · intro a ha
            simp only [List.mem_cons, not_or] at ha
            exact h3other a ha.1 ha.2.1

theorem task_deque_popback_refines {h : TaskHeap} {d : task_deque} {l : List Nat}
    (hr : dequeRepr h d l) :
    (task_deque_popback h d).1 = l.getLast? ∧
    dequeRepr (task_deque_popback h d).2.1 (task_deque_popback h d).2.2 l.dropLast ∧
    heapFrame h (task_deque_popback h d).2.1 l := by
  obtain ⟨hs, htl, hnd⟩ := hr
  rcases List.eq_nil_or_concat l with hnil | ⟨l₀, tl, hcat⟩
  on_goal 2 => rw [List.concat_eq_append] at hcat
  · subst hnil
    have hdt : d.tail = none := by simpa using htl
    have hd : d.head = none := by simpa [headPtr] using segb_head hs
    refine ⟨?_, ⟨?_, ?_, ?_⟩, ?_⟩ <;>
      simp [task_deque_popback, hdt, hd, segb_nil_iff, heapFrame]
  · subst hcat
    have hdt : d.tail = some tl := by rw [htl, List.getLast?_concat]
    rw [segb_append] at hs
    simp only [Bool.and_eq_true] at hs
    obtain ⟨hfac1, hfac2⟩ := hs
    rw [headPtr, segb_cons_iff] at hfac2
    obtain ⟨-, hptl, -⟩ := hfac2
    have htlnl₀ : tl ∉ l₀ := by
      intro hmem
      have := List.disjoint_of_nodup_append hnd
      exact this hmem (by simp)
    cases l₀ with
    | nil =>
        have hprev : (h tl).prev = none := by rw [hptl]; rfl
        refine ⟨?_, ⟨?_, ?_, ?_⟩, ?_⟩
        · simp [task_deque_popback, hdt, hprev, List.getLast?_concat]
        · simp [task_deque_popback, hdt, hprev, segb_nil_iff]
        · simp [task_deque_popback, hdt, hprev]
        · simp [task_deque_popback, hdt, hprev]
        · intro a ha
          simp only [List.nil_append, List.mem_cons, List.not_mem_nil, or_false] at ha
          simp [task_deque_popback, hdt, hprev,
            setPrev_other _ _ ha, setNext_other _ _ ha]
    | cons z l₀' =>
        cases hgl : (z :: l₀').getLast? with
        | none => simp at hgl
        | some pv =>
        have hpvmem : pv ∈ z :: l₀' := List.mem_of_mem_getLast? (by simp [hgl])
        have hpvtl : pv ≠ tl := fun hEq => htlnl₀ (hEq ▸ hpvmem)
        have hprev : (h tl).prev = some pv := by
          rw [hptl, lastPtr, hgl]
        set h3 := setPrev (setNext (setNext h pv none) tl none) tl none with hh3
        have hpopb : task_deque_popback h d =
            (some tl, h3, { d with tail := some pv }) := by
          simp [task_deque_popback, hdt, hprev, hh3]
        have h3pv : h3 pv = { h pv with next := none } := by
          rw [hh3, setPrev_other _ _ hpvtl, setNext_other _ _ hpvtl, setNext_self]
        have h3other : ∀ a, a ≠ pv → a ≠ tl → h3 a = h a := by
          intro a hapv hatl
          rw [hh3, setPrev_other _ _ hatl, setNext_other _ _ hatl,
            setNext_other _ _ hapv]
        rw [hpopb]
        refine ⟨?_, ⟨?_, ?_, ?_⟩, ?_⟩
        · rw [List.getLast?_concat]
        · show segb h3 none d.head ((z :: l₀') ++ [tl]).dropLast none = true
          rw [List.dropLast_concat]
          refine segb_retarget (z :: l₀') none d.head (some tl) none pv hfac1 hgl
            (List.Nodup.of_append_left hnd) ?_ (by rw [h3pv]) (by rw [h3pv])
          intro a hamem hane
          exact h3other a hane (fun hEq => htlnl₀ (hEq ▸ hamem))
        · show some pv = ((z :: l₀') ++ [tl]).dropLast.getLast?
          rw [List.dropLast_concat, hgl]
        · show ((z :: l₀') ++ [tl]).dropLast.Nodup
          rw [List.dropLast_concat]
          exact List.Nodup.of_append_left hnd
        · intro a ha
          rw [List.mem_append] at ha
          push_neg at ha
          exact h3other a (fun hEq => ha.1 (hEq ▸ hpvmem)) (fun hEq => ha.2 (by simp [hEq]))

theorem deque_walk_none (h : TaskHeap) : ∀ n, deque_walk h none n = none
  | 0 => rfl
  | _ + 1 => rfl

theorem deque_walk_succ (h : TaskHeap) (t : Nat) (n : Nat) :
    deque_walk h (some t) (n + 1) = deque_walk h ((h t).next) n := by
  rfl

theorem deque_walk_add (h : TaskHeap) :
    ∀ (m n : Nat) (cur : Option Nat),
    deque_walk h cur (m + n) = deque_walk h (deque_walk h cur m) n := by
  intro m
  induction m with
  | zero => intro n cur; rw [Nat.zero_add]; cases cur <;> rfl
  | succ m ih =>
      intro n cur
      cases cur with
      | none => rw [deque_walk_none, deque_walk_none, deque_walk_none]
      | some t =>
          have hL : deque_walk h (some t) (m + 1 + n) =
              deque_walk h ((h t).next) (m + n) := by
            rw [Nat.succ_add]
            exact deque_walk_succ h t (m + n)
          rw [hL, ih n ((h t).next), deque_walk_succ]

theorem insertIdx_eq_take_cons_drop {α : Type} (a : α) :
    ∀ (n : Nat) (l : List α), n ≤ l.length →
    List.insertIdx n a l = l.take n ++ a :: l.drop n := by
  intro n
  induction n with
  | zero => intro l _; simp [List.insertIdx_zero]
  | succ n ih =>
      intro l hl
      cases l with
      | nil => simp at hl
      | cons x l =>
          rw [List.insertIdx_succ_cons, ih l (by simpa using hl)]
          simp

theorem task_deque_insert_refines {h : TaskHeap} {d : task_deque} {l : List Nat}
    {t : Nat} {pos : Nat} (hr : dequeRepr h d l) (hf : t ∉ l)
    (hp : (h t).prev = none) (hn : (h t).next = none) :
    dequeRepr (task_deque_insert h d t pos).1 (task_deque_insert h d t pos).2
      (List.insertIdx (insertIdxOfPos l.length pos) t l) ∧
    heapFrame h (task_deque_insert h d t pos).1 (t :: l) := by
  obtain ⟨hs, htl, hnd⟩ := hr
  by_cases hc : pos = 0 ∨ d.head = none
  · have hres : task_deque_insert h d t pos = task_deque_push h d t := by
      simp [task_deque_insert, hc]
    rw [hres]
    have hmain := task_deque_push_refines ⟨hs, htl, hnd⟩ hf hp hn
    rcases hc with hc | hc
    · rw [insertIdxOfPos, if_pos hc, List.insertIdx_zero]
      exact hmain
    · have hlnil : l = [] := by
        cases l with
        | nil => rfl
        | cons x l => rw [hc] at *; exact absurd (segb_head hs) (by simp [headPtr])
      subst hlnil
      have hidx : insertIdxOfPos ([] : List Nat).length pos = 0 := by
        simp [insertIdxOfPos]
      rw [hidx, List.insertIdx_zero]
      exact hmain
  · push_neg at hc
    obtain ⟨hpos, hhead⟩ := hc
    have hwalk := deque_walk_eq l none d.head hs
    cases hL : l[pos]? with
    | none =>
        have hres : task_deque_insert h d t pos = task_deque_pushback h d t := by
          simp only [task_deque_insert,
            if_neg (show ¬(pos = 0 ∨ d.head = none) by simp [hpos, hhead]),
            hwalk pos, hL]
        rw [hres]
        have hlen : l.length ≤ pos := List.getElem?_eq_none_iff.mp hL
        have hidx : insertIdxOfPos l.length pos = l.length := by
          rw [insertIdxOfPos, if_neg hpos]
          omega
        rw [hidx, List.insertIdx_length_self]
        exact task_deque_pushback_refines ⟨hs, htl, hnd⟩ hf hp hn
    | some tmp =>
        have hnext_eq : (h tmp).next = l[pos + 1]? := by
          have h1 : deque_walk h d.head (pos + 1) = l[pos + 1]? := hwalk (pos + 1)
          rw [deque_walk_add h pos 1 d.head, hwalk pos, hL] at h1
          simpa [deque_walk] using h1
        have hposlt : pos < l.length := by
          obtain ⟨hlt, -⟩ := List.getElem?_eq_some_iff.mp hL
          exact hlt
        have htmpmem : tmp ∈ l := List.getElem?_mem hL
        have httmp : t ≠ tmp := fun hEq => hf (hEq ▸ htmpmem)
        cases hN : l[pos + 1]? with
        | none =>
            have hres : task_deque_insert h d t pos = task_deque_pushback h d t := by
              simp only [task_deque_insert,
                if_neg (show ¬(pos = 0 ∨ d.head = none) by simp [hpos, hhead]),
                hwalk pos, hL, hnext_eq, hN]
            rw [hres]
            have hlen : l.length ≤ pos + 1 := List.getElem?_eq_none_iff.mp hN
            have hidx : insertIdxOfPos l.length pos = l.length := by
              rw [insertIdxOfPos, if_neg hpos]
              omega
            rw [hidx, List.insertIdx_length_self]
            exact task_deque_pushback_refines ⟨hs, htl, hnd⟩ hf hp hn
        | some tnext =>
            have hpos1lt : pos + 1 < l.length := by
              obtain ⟨hlt, -⟩ := List.getElem?_eq_some_iff.mp hN
              exact hlt
            have htnextmem : tnext ∈ l := List.getElem?_mem hN
            have httnext : t ≠ tnext := fun hEq => hf (hEq ▸ htnextmem)
            -- the heap after the four pointer writes of the middle branch
            have hres : task_deque_insert h d t pos =
                (setNext (setPrev (setPrev (setNext h t (some tnext))
                  tnext (some t)) t (some tmp)) tmp (some t), d) := by
              simp only [task_deque_insert,
                if_neg (show ¬(pos = 0 ∨ d.head = none) by simp [hpos, hhead]),
                hwalk pos, hL, hnext_eq, hN]
            set h4 := setNext (setPrev (setPrev (setNext h t (some tnext))
                tnext (some t)) t (some tmp)) tmp (some t) with hh4
            -- decompose l around the insertion point
            have htake : l.take (pos + 1) = l.take pos ++ [tmp] := by
              rw [List.take_succ, hL]
              rfl
            have hl1last : (l.take (pos + 1)).getLast? = some tmp := by
              rw [htake, List.getLast?_concat]
            have hgetN : l[pos + 1] = tnext := by
              obtain ⟨hw, hEq⟩ := List.getElem?_eq_some_iff.mp hN
              exact hEq
            have hdrop : l.drop (pos + 1) = tnext :: l.drop (pos + 2) := by
              rw [List.drop_eq_getElem_cons hpos1lt, hgetN]
            have hsplit : l.take (pos + 1) ++ l.drop (pos + 1) = l :=
              List.take_append_drop (pos + 1) l
            have hndsplit : (l.take (pos + 1) ++ l.drop (pos + 1)).Nodup := by
              rw [hsplit]; exact hnd
            have hdisj : ∀ a ∈ l.take (pos + 1), a ∉ l.drop (pos + 1) :=
              fun a ha => List.disjoint_of_nodup_append hndsplit ha
            have htmpl1 : tmp ∈ l.take (pos + 1) :=
              List.mem_of_mem_getLast? (by simp [hl1last])
            have htmptnext : tmp ≠ tnext := by
              intro hEq
              exact hdisj tmp htmpl1 (by rw [hdrop, hEq]; simp)
            -- field values after the writes
            have h4t_prev : (h4 t).prev = some tmp := by
              rw [hh4, setNext_other _ _ httmp, prev_setPrev_self]
            have h4t_next : (h4 t).next = some tnext := by
              rw [hh4, setNext_other _ _ httmp, next_setPrev, next_setPrev,
                next_setNext_self]
            have h4tmp_prev : (h4 tmp).prev = (h tmp).prev := by
              rw [hh4, prev_setNext, setPrev_other _ _ httmp.symm,
                setPrev_other _ _ htmptnext, prev_setNext]
            have h4tmp_next : (h4 tmp).next = some t := by
              rw [hh4, next_setNext_self]
            have h4tnext_prev : (h4 tnext).prev = some t := by
              rw [hh4, setNext_other _ _ htmptnext.symm,
                setPrev_other _ _ httnext.symm, prev_setPrev_self]
            have h4tnext_next : (h4 tnext).next = (h tnext).next := by
              rw [hh4, setNext_other _ _ htmptnext.symm, next_setPrev, next_setPrev,
                setNext_other _ _ httnext.symm]
            have h4other : ∀ a, a ≠ t → a ≠ tmp → a ≠ tnext → h4 a = h a := by
              intro a hat hatmp hatnext
              rw [hh4, setNext_other _ _ hatmp, setPrev_other _ _ hat,
                setPrev_other _ _ hatnext, setNext_other _ _ hat]
            have hidx : insertIdxOfPos l.length pos = pos + 1 := by
              rw [insertIdxOfPos, if_neg hpos]
              omega
            have htarget : List.insertIdx (pos + 1) t l =
                l.take (pos + 1) ++ t :: l.drop (pos + 1) :=
              insertIdx_eq_take_cons_drop t (pos + 1) l (by omega)
            rw [hres, hidx, htarget]
            -- the original chain, decomposed at the split point
            have hs' : segb h none d.head (l.take (pos + 1) ++ l.drop (pos + 1)) none
                = true := by rw [hsplit]; exact hs
            rw [segb_append] at hs'
            simp only [Bool.and_eq_true] at hs'
            obtain ⟨hfac1, hfac2⟩ := hs'
            have hheadl2 : headPtr (l.drop (pos + 1)) none = some tnext := by
              rw [hdrop]; rfl
            refine ⟨⟨?_, ?_, ?_⟩, ?_⟩
            · rw [segb_append]
              have hfac1' : segb h4 none d.head (l.take (pos + 1))
                  (headPtr (t :: l.drop (pos + 1)) none) = true := by
                refine segb_retarget (l.take (pos + 1)) none d.head
                  (headPtr (l.drop (pos + 1)) none) (some t) tmp hfac1 hl1last
                  (List.Nodup.of_append_left hndsplit) ?_ h4tmp_prev
                  (by simpa [headPtr] using h4tmp_next)
                intro z hz hzne
                refine h4other z (fun hEq => hf (hEq ▸ List.mem_of_mem_take hz)) hzne
                  (fun hEq => hdisj z hz (by rw [hdrop, hEq]; simp))
              have hfac2' : segb h4 (lastPtr none (l.take (pos + 1)))
                  (headPtr (t :: l.drop (pos + 1)) none) (t :: l.drop (pos + 1)) none
                  = true := by
                rw [headPtr, segb_cons_iff]
                refine ⟨rfl, by rw [h4t_prev, lastPtr, hl1last], ?_⟩
                rw [h4t_next, hdrop, segb_cons_iff]
                refine ⟨rfl, h4tnext_prev, ?_⟩
                rw [h4tnext_next]
                have hfac2r : segb h (some tnext) ((h tnext).next) (l.drop (pos + 2))
                    none = true := by
                  rw [hheadl2] at hfac2
                  rw [hdrop, segb_cons_iff] at hfac2
                  exact hfac2.2.2
                rw [@segb_congr h h4 _ ?_ (some tnext) ((h tnext).next) none]
                · exact hfac2r
                · intro z hz
                  have hzdrop : z ∈ l.drop (pos + 1) := by rw [hdrop]; simp [hz]
                  have hnddrop := List.Nodup.of_append_right hndsplit
                  rw [hdrop] at hnddrop
                  refine h4other z
                    (fun hEq => hf (hEq ▸ List.mem_of_mem_drop hzdrop))
                    (fun hEq => hdisj tmp htmpl1 (hEq ▸ hzdrop))
                    (fun hEq => (List.nodup_cons.mp hnddrop).1 (hEq ▸ hz))
              rw [hfac1', hfac2']
              rfl
            · show d.tail = (l.take (pos + 1) ++ t :: l.drop (pos + 1)).getLast?
              have h1 : l.drop (pos + 1) ≠ [] := by rw [hdrop]; simp
              have hR : (l.take (pos + 1) ++ t :: l.drop (pos + 1)).getLast? =
                  (t :: l.drop (pos + 1)).getLast? :=
                List.getLast?_append_of_ne_nil _ (by simp)
              have hR2 : (t :: l.drop (pos + 1)).getLast? =
                  (l.drop (pos + 1)).getLast? := by
                rw [hdrop, List.getLast?_cons_cons]
              have hL2 : l.getLast? = (l.drop (pos + 1)).getLast? := by
                conv_lhs => rw [← hsplit]
                exact List.getLast?_append_of_ne_nil _ h1
              rw [htl, hR, hR2, hL2]
            · have hperm : List.Perm (l.take (pos + 1) ++ t :: l.drop (pos + 1))
                  (t :: (l.take (pos + 1) ++ l.drop (pos + 1))) := List.perm_middle
              refine hperm.symm.nodup (List.nodup_cons.mpr ⟨?_, hndsplit⟩)
              rw [hsplit]
              exact hf
            · intro a ha
              simp only [List.mem_cons, not_or] at ha
              refine h4other a ha.1 (fun hEq => ha.2 (hEq ▸ htmpmem))
                (fun hEq => ha.2 (hEq ▸ htnextmem))

theorem task_deque_move_refines {h : TaskHeap} {dst src : task_deque}
    {ld ls : List Nat} (hrd : dequeRepr h dst ld) (hrs : dequeRepr h src ls)
    (hnd : (ls ++ ld).Nodup) :
    dequeRepr (task_deque_move h dst src).1 (task_deque_move h dst src).2.1
      (ls ++ ld) ∧
    dequeRepr (task_deque_move h dst src).1 (task_deque_move h dst src).2.2 [] ∧
    heapFrame h (task_deque_move h dst src).1 (ls ++ ld) := by
  obtain ⟨hsd, htld, hndd⟩ := hrd
  obtain ⟨hss, htls, hnds⟩ := hrs
  cases ls with
  | nil =>
      have hsh : src.head = none := by simpa [headPtr] using segb_head hss
      have hmv : task_deque_move h dst src = (h, dst, src) := by
        simp [task_deque_move, hsh]
      rw [hmv]
      exact ⟨⟨hsd, htld, hndd⟩, ⟨hss, by simpa using htls, by simp⟩,
        fun a _ => rfl⟩
  | cons s0 ls' =>
      have hsh : src.head = some s0 := by simpa [headPtr] using segb_head hss
      cases hgl : (s0 :: ls').getLast? with
      | none => simp at hgl
      | some st =>
      have hst : src.tail = some st := by rw [htls, hgl]
      have hstmem : st ∈ s0 :: ls' := List.mem_of_mem_getLast? (by simp [hgl])
      have hdisj : ∀ a ∈ s0 :: ls', a ∉ ld := fun a ha =>
        List.disjoint_of_nodup_append hnd ha
      cases hdh : dst.head with
      | none =>
          have hldnil : ld = [] := by
            cases ld with
            | nil => rfl
            | cons x ld' => rw [hdh] at hsd; exact absurd (segb_head hsd) (by simp [headPtr])
          subst hldnil
          have hmv : task_deque_move h dst src =
              (h, { head := src.head, tail := src.tail },
                { head := none, tail := none }) := by
            simp [task_deque_move, hsh, hst, hdh]
          rw [hmv]
          refine ⟨⟨?_, ?_, ?_⟩, ⟨?_, ?_, ?_⟩, fun a _ => rfl⟩
          · simpa [hsh] using hss
          · simpa [hst] using htls
          · simpa using hnd
          · simp [segb_nil_iff]
          · simp
          · simp
      | some dh =>
          obtain ⟨ld', hld⟩ : ∃ ld', ld = dh :: ld' := by
            cases ld with
            | nil => rw [hdh] at hsd; exact absurd (segb_head hsd) (by simp [headPtr])
            | cons x ld' =>
                rw [hdh] at hsd
                have := segb_head hsd
                simp [headPtr] at this
                exact ⟨ld', by rw [this]⟩
          subst hld
          have hdhmem : dh ∈ dh :: ld' := by simp
          have hstdh : st ≠ dh := fun hEq => hdisj st hstmem (hEq ▸ hdhmem)
          have hmv : task_deque_move h dst src =
              (setPrev (setNext h st (some dh)) dh (some st),
                { head := src.head, tail := dst.tail },
                { head := none, tail := none }) := by
            simp [task_deque_move, hsh, hst, hdh]
          set h2 := setPrev (setNext h st (some dh)) dh (some st) with hh2
          have h2st : h2 st = { h st with next := some dh } := by
            rw [hh2, setPrev_other _ _ hstdh, setNext_self]
          have h2dh : (h2 dh).prev = some st := by
            rw [hh2, prev_setPrev_self]
          have h2dh_next : (h2 dh).next = (h dh).next := by
            rw [hh2, next_setPrev, setNext_other _ _ hstdh.symm]
          have h2other : ∀ a, a ≠ st → a ≠ dh → h2 a = h a := by
            intro a hast hadh
            rw [hh2, setPrev_other _ _ hadh, setNext_other _ _ hast]
          rw [hmv]
          refine ⟨⟨?_, ?_, ?_⟩, ⟨?_, ?_, ?_⟩, ?_⟩
          · show segb h2 none src.head ((s0 :: ls') ++ dh :: ld') none = true
            rw [segb_append]
            have hfac1 : segb h2 none src.head (s0 :: ls')
                (headPtr (dh :: ld') none) = true := by
              refine segb_retarget (s0 :: ls') none src.head none
                (headPtr (dh :: ld') none) st hss hgl hnds ?_
                (by rw [h2st]) (by rw [h2st]; rfl)
              intro z hz hzne
              exact h2other z hzne (fun hEq => hdisj z hz (hEq ▸ hdhmem))
            have hfac2 : segb h2 (lastPtr none (s0 :: ls'))
                (headPtr (dh :: ld') none) (dh :: ld') none = true := by
              rw [headPtr, segb_cons_iff]
              refine ⟨rfl, by rw [h2dh, lastPtr, hgl], ?_⟩
              rw [h2dh_next]
              rw [segb_cons_iff] at hsd
              rw [hdh] at hsd
              obtain ⟨-, -, hrecd⟩ := hsd
              rw [@segb_congr h h2 _ ?_ (some dh) ((h dh).next) none]
              · exact hrecd
              · intro z hz
                exact h2other z (fun hEq => hdisj st hstmem (hEq ▸ by simp [hz]))
                  (fun hEq => (List.nodup_cons.mp hndd).1 (hEq ▸ hz))
            rw [hfac1, hfac2]
            rfl
          · show dst.tail = ((s0 :: ls') ++ dh :: ld').getLast?
            rw [htld, List.getLast?_append_of_ne_nil _ (by simp)]
          · exact hnd
          · simp [segb_nil_iff]
          · simp
          · simp
          · intro a ha
            rw [List.mem_append] at ha
            push_neg at ha
            exact h2other a (fun hEq => ha.1 (hEq ▸ hstmem))
              (fun hEq => ha.2 (hEq ▸ hdhmem))

/-! ## Priority fields are never written by the queue code -/

theorem task_deque_push_prio (h : TaskHeap) (d : task_deque) (t : Nat) :
    ∀ a, (((task_deque_push h d t).1) a).prio = (h a).prio := by
  intro a
  cases hd : d.head <;> simp [task_deque_push, hd, prio_setNext, prio_setPrev]

theorem task_deque_pushback_prio (h : TaskHeap) (d : task_deque) (t : Nat) :
    ∀ a, (((task_deque_pushback h d t).1) a).prio = (h a).prio := by
  intro a
  cases hd : d.head with
  | none => simp [task_deque_pushback, hd]
  | some x =>
      cases hdt : d.tail <;>
        simp [task_deque_pushback, hd, hdt, prio_setNext, prio_setPrev]

theorem task_deque_pop_prio (h : TaskHeap) (d : task_deque) :
    ∀ a, (((task_deque_pop h d).2.1) a).prio = (h a).prio := by
  intro a
  cases hd : d.head with
  | none => simp [task_deque_pop, hd]
  | some x =>
      cases hn : (h x).next <;>
        (simp only [task_deque_pop, hd, hn]
         split <;> simp [prio_setNext, prio_setPrev])

theorem task_deque_popback_prio (h : TaskHeap) (d : task_deque) :
    ∀ a, (((task_deque_popback h d).2.1) a).prio = (h a).prio := by
  intro a
  cases hdt : d.tail with
  | none => simp [task_deque_popback, hdt]
  | some x =>
      cases hp : (h x).prev <;>
        simp [task_deque_popback, hdt, hp, prio_setNext, prio_setPrev]

theorem task_deque_insert_prio (h : TaskHeap) (d : task_deque) (t pos : Nat) :
    ∀ a, (((task_deque_insert h d t pos).1) a).prio = (h a).prio := by
  intro a
  unfold task_deque_insert
  split
  · exact task_deque_push_prio h d t a
  · split
    · exact task_deque_pushback_prio h d t a
    · split
      · exact task_deque_pushback_prio h d t a
      · simp [prio_setNext, prio_setPrev]

theorem task_deque_move_prio (h : TaskHeap) (dst src : task_deque) :
    ∀ a, (((task_deque_move h dst src).1) a).prio = (h a).prio := by
  intro a
  unfold task_deque_move
  split
  · split <;> simp [prio_setNext, prio_setPrev]
  · rfl

theorem remove_unlink_heap_prio (h : TaskHeap) (t : Nat) :
    ∀ a, ((remove_unlink_heap h t) a).prio = (h a).prio := by
  intro a
  unfold remove_unlink_heap
  cases hp : (h t).prev <;> cases hn : (h t).next <;>
    simp [hp, hn, prio_setNext, prio_setPrev]

theorem remove_unlink_refines {h : TaskHeap} {d : task_deque} {l₁ l₂ : List Nat}
    {t : Nat} (hr : dequeRepr h d (l₁ ++ t :: l₂)) :
    (h t).prev = lastPtr none l₁ ∧ (h t).next = headPtr l₂ none ∧
    segb (remove_unlink_heap h t) none (headPtr (l₁ ++ l₂) none) (l₁ ++ l₂) none
      = true ∧
    (∀ a, a ∉ l₁ ++ t :: l₂ → remove_unlink_heap h t a = h a) := by
  obtain ⟨hs, htl, hnd⟩ := hr
  have htnl₁ : t ∉ l₁ := fun hmem =>
    (List.disjoint_of_nodup_append hnd) hmem (by simp)
  have htnl₂ : t ∉ l₂ := by
    have := List.Nodup.of_append_right hnd
    exact (List.nodup_cons.mp this).1
  rw [segb_append] at hs
  simp only [Bool.and_eq_true] at hs
  obtain ⟨hfac1, hfacT⟩ := hs
  rw [show headPtr (t :: l₂) none = some t from rfl, segb_cons_iff] at hfacT
  obtain ⟨-, hpt, hrec⟩ := hfacT
  have hnt : (h t).next = headPtr l₂ none := segb_head hrec
  refine ⟨hpt, hnt, ?_, ?_⟩
  · -- the new chain
    cases hl₂ : l₂ with
    | nil =>
        subst hl₂
        have hnt' : (h t).next = none := by rw [hnt]; rfl
        cases hl₁ : l₁ with
        | nil =>
            subst hl₁
            simp [remove_unlink_heap, hpt, hnt', lastPtr, segb_nil_iff, headPtr]
        | cons c l₁' =>
            subst hl₁
            cases hgl : (c :: l₁').getLast? with
            | none => simp at hgl
            | some p =>
            have hpt' : (h t).prev = some p := by rw [hpt, lastPtr, hgl]
            have hpmem : p ∈ c :: l₁' := List.mem_of_mem_getLast? (by simp [hgl])
            have htp : t ≠ p := fun hEq => htnl₁ (hEq ▸ hpmem)
            have hheap : remove_unlink_heap h t =
                setPrev (setNext (setNext h p none) t none) t none := by
              simp [remove_unlink_heap, hpt', hnt']
            rw [hheap]
            have hagree : ∀ z ∈ c :: l₁', z ≠ p →
                (setPrev (setNext (setNext h p none) t none) t none) z = h z := by
              intro z hz hzp
              have hzt : z ≠ t := fun hEq => htnl₁ (hEq ▸ hz)
              rw [setPrev_other _ _ hzt, setNext_other _ _ hzt,
                setNext_other _ _ hzp]
            simp only [List.append_nil]
            have hcur : d.head = some c := by
              simpa [headPtr] using segb_head hfac1
            refine segb_retarget (c :: l₁') none (headPtr (c :: l₁') none)
              (some t) none p ?_ hgl (List.Nodup.of_append_left hnd) hagree ?_ ?_
            · rw [show headPtr (c :: l₁') none = some c from rfl, ← hcur]
              simpa [headPtr] using hfac1
            · rw [setPrev_other _ _ htp.symm, setNext_other _ _ htp.symm,
                prev_setNext]
            · rw [setPrev_other _ _ htp.symm, setNext_other _ _ htp.symm,
                next_setNext_self]
    | cons n l₂' =>
        subst hl₂
        have hnt' : (h t).next = some n := by rw [hnt]; rfl
        have hnmem : n ∈ n :: l₂' := by simp
        have htn : t ≠ n := fun hEq => htnl₂ (hEq ▸ hnmem)
        rw [hnt', segb_cons_iff] at hrec
        obtain ⟨-, -, hrec2⟩ := hrec
        have hnd₂ := List.Nodup.of_append_right hnd
        have hndl₂ := (List.nodup_cons.mp hnd₂).2
        have hndn : n ∉ l₂' := (List.nodup_cons.mp hndl₂).1
        cases hl₁ : l₁ with
        | nil =>
            subst hl₁
            have hpt' : (h t).prev = none := by rw [hpt]; rfl
            have hheap : remove_unlink_heap h t =
                setPrev (setNext (setPrev h n none) t none) t none := by
              simp [remove_unlink_heap, hpt', hnt']
            rw [hheap]
            simp only [List.nil_append]
            rw [show headPtr (n :: l₂') none = some n from rfl, segb_cons_iff]
            refine ⟨rfl, ?_, ?_⟩
            · rw [setPrev_other _ _ htn.symm, setNext_other _ _ htn.symm,
                prev_setPrev_self]
            · have hnn : ((setPrev (setNext (setPrev h n none) t none) t none) n).next
                  = (h n).next := by
                rw [setPrev_other _ _ htn.symm, setNext_other _ _ htn.symm,
                  next_setPrev]
              rw [hnn]
              rw [@segb_congr h
                (setPrev (setNext (setPrev h n none) t none) t none)
                _ ?_ (some n) ((h n).next) none]
              · exact hrec2
              · intro z hz
                have hzn : z ≠ n := fun hEq => hndn (hEq ▸ hz)
                have hzt : z ≠ t := fun hEq => htnl₂ (hEq ▸ by simp [hz])
                rw [setPrev_other _ _ hzt, setNext_other _ _ hzt,
                  setPrev_other _ _ hzn]
        | cons c l₁' =>
            subst hl₁
            cases hgl : (c :: l₁').getLast? with
            | none => simp at hgl
            | some p =>
            have hpt' : (h t).prev = some p := by rw [hpt, lastPtr, hgl]
            have hpmem : p ∈ c :: l₁' := List.mem_of_mem_getLast? (by simp [hgl])
            have htp : t ≠ p := fun hEq => htnl₁ (hEq ▸ hpmem)
            have hpn : p ≠ n := fun hEq =>
              (List.disjoint_of_nodup_append hnd) hpmem (by simp [hEq])
            have hheap : remove_unlink_heap h t =
                setPrev (setNext (setPrev (setNext h p (some n)) n (some p))
                  t none) t none := by
              simp [remove_unlink_heap, hpt', hnt']
            set h4 := setPrev (setNext (setPrev (setNext h p (some n)) n (some p))
              t none) t none with hh4
            have h4p_next : (h4 p).next = some n := by
              rw [hh4, setPrev_other _ _ htp.symm, setNext_other _ _ htp.symm,
                next_setPrev, next_setNext_self]
            have h4p_prev : (h4 p).prev = (h p).prev := by
              rw [hh4, setPrev_other _ _ htp.symm, setNext_other _ _ htp.symm,
                setPrev_other _ _ hpn, prev_setNext]
            have h4n_prev : (h4 n).prev = some p := by
              rw [hh4, setPrev_other _ _ htn.symm, setNext_other _ _ htn.symm,
                prev_setPrev_self]
            have h4n_next : (h4 n).next = (h n).next := by
              rw [hh4, setPrev_other _ _ htn.symm, setNext_other _ _ htn.symm,
                next_setPrev, setNext_other _ _ hpn.symm]
            have h4other : ∀ a, a ≠ t → a ≠ p → a ≠ n → h4 a = h a := by
              intro a hat hap han
              rw [hh4, setPrev_other _ _ hat, setNext_other _ _ hat,
                setPrev_other _ _ han, setNext_other _ _ hap]
            rw [hheap, segb_append]
            have hfac1' : segb h4 none (headPtr ((c :: l₁') ++ n :: l₂') none)
                (c :: l₁') (headPtr (n :: l₂') none) = true := by
              have hhd : headPtr ((c :: l₁') ++ n :: l₂') none = some c := rfl
              have hhd1 : headPtr ((c :: l₁') ++ t :: n :: l₂') none = some c := rfl
              have hcur : d.head = some c := by
                have := segb_head hfac1
                simpa [headPtr] using this
              rw [hhd]
              refine segb_retarget (c :: l₁') none (some c) (some t)
                (headPtr (n :: l₂') none) p (hcur ▸ hfac1) hgl
                (List.Nodup.of_append_left hnd) ?_ h4p_prev
                (by simpa [headPtr] using h4p_next)
              intro z hz hzp
              have hzt : z ≠ t := fun hEq => htnl₁ (hEq ▸ hz)
              have hzn : z ≠ n := fun hEq =>
                (List.disjoint_of_nodup_append hnd) hz (by simp [hEq])
              exact h4other z hzt hzp hzn
            have hfac2' : segb h4 (lastPtr none (c :: l₁'))
                (headPtr (n :: l₂') none) (n :: l₂') none = true := by
              rw [show headPtr (n :: l₂') none = some n from rfl, segb_cons_iff]
              refine ⟨rfl, by rw [h4n_prev, lastPtr, hgl], ?_⟩
              rw [h4n_next]
              rw [@segb_congr h h4 _ ?_ (some n) ((h n).next) none]
              · exact hrec2
              · intro z hz
                have hzt : z ≠ t := fun hEq => htnl₂ (hEq ▸ by simp [hz])
                have hzn : z ≠ n := fun hEq => hndn (hEq ▸ hz)
                have hzp : z ≠ p := fun hEq =>
                  (List.disjoint_of_nodup_append hnd) hpmem (hEq ▸ by simp [hz])
                exact h4other z hzt hzp hzn
            rw [hfac1', hfac2']
            rfl
  · -- frame
    intro a ha
    rw [List.mem_append] at ha
    push_neg at ha
    obtain ⟨ha₁, ha₂⟩ := ha
    have hat : a ≠ t := fun hEq => ha₂ (by simp [hEq])
    unfold remove_unlink_heap
    rw [setPrev_other _ _ hat, setNext_other _ _ hat]
    have hstep1 : ∀ (h' : TaskHeap),
        (match (h t).next with
         | some n => setPrev h' n ((h t).prev)
         | none => h') a = h' a := by
      intro h'
      cases hn2 : (h t).next with
      | none => rfl
      | some n =>
          have han : a ≠ n := by
            intro hEq
            rw [hnt] at hn2
            cases hl₂ : l₂ with
            | nil => rw [hl₂] at hn2; simp [headPtr] at hn2
            | cons m l₂' =>
                rw [hl₂] at hn2
                simp [headPtr] at hn2
                exact ha₂ (by simp [hEq, ← hn2, hl₂])
          exact setPrev_other _ _ han
    rw [hstep1]
    cases hp2 : (h t).prev with
    | none => rfl
    | some p =>
        have hap : a ≠ p := by
          intro hEq
          rw [hpt] at hp2
          cases hl₁ : l₁ with
          | nil => rw [hl₁] at hp2; simp [lastPtr] at hp2
          | cons c l₁' =>
              rw [hl₁] at hp2
              cases hgl : (c :: l₁').getLast? with
              | none => simp at hgl
              | some p' =>
                  rw [lastPtr, hgl] at hp2
                  simp at hp2
                  refine ha₁ ?_
                  rw [hl₁, hEq, ← hp2]
                  exact List.mem_of_mem_getLast? (by simp [hgl])
        exact setNext_other _ _ hap

/-! ## Lifting deque refinements to the two-priority task queue -/

theorem dequeRepr_congr {h h' : TaskHeap} {d : task_deque} {l : List Nat}
    (hr : dequeRepr h d l) (hagree : ∀ x ∈ l, h' x = h x) : dequeRepr h' d l :=
  ⟨by rw [segb_congr hagree]; exact hr.1, hr.2.1, hr.2.2⟩

/-- Dispatch lemma, high-priority branch: inserting a fresh task into the
high-priority deque through any deque operation `op` whose list effect is
`f` preserves the queue abstraction. -/
theorem tq_dispatch_high
    (op : TaskHeap → task_deque → Nat → TaskHeap × task_deque)
    (f : List Nat → Nat → List Nat)
    (hop : ∀ (h : TaskHeap) (d : task_deque) (l : List Nat) (t : Nat),
      dequeRepr h d l → t ∉ l → (h t).prev = none → (h t).next = none →
      dequeRepr (op h d t).1 (op h d t).2 (f l t) ∧ heapFrame h (op h d t).1 (t :: l))
    (hprio : ∀ h d t a, ((op h d t).1 a).prio = (h a).prio)
    (hsub : ∀ l t, ∀ x ∈ f l t, x = t ∨ x ∈ l)
    {h0 : TaskHeap} {tq : dart_taskqueue_t} {lh ll : List Nat} {t : Nat}
    (hq : tqRepr h0 tq lh ll) (hf : t ∉ lh ++ ll)
    (hp : (h0 t).prev = none) (hn : (h0 t).next = none)
    (hpr : (h0 t).prio = PRIO_HIGH) :
    tqRepr (op h0 tq.highprio t).1 { tq with highprio := (op h0 tq.highprio t).2 }
      (f lh t) ll ∧
    heapFrame h0 (op h0 tq.highprio t).1 (t :: (lh ++ ll)) := by
  obtain ⟨hrh, hrl, hnd, hprioh, hpriol⟩ := hq
  rw [List.mem_append] at hf
  push_neg at hf
  obtain ⟨hftl, hfll⟩ := hf
  obtain ⟨hrep, hframe⟩ := hop h0 tq.highprio lh t hrh hftl hp hn
  have hdisj : ∀ a ∈ ll, a ∉ lh := fun a ha hb =>
    (List.disjoint_of_nodup_append hnd) hb ha
  refine ⟨⟨hrep, ?_, ?_, ?_, ?_⟩, ?_⟩
  · refine dequeRepr_congr hrl ?_
    intro x hx
    refine hframe x ?_
    simp only [List.mem_cons, not_or]
    exact ⟨fun hEq => hfll (hEq ▸ hx), fun hmem => hdisj x hx hmem⟩
  · -- nodup of (f lh t ++ ll)
    have hnd1 : (f lh t).Nodup := hrep.2.2
    have hnd2 : ll.Nodup := List.Nodup.of_append_right hnd
    rw [List.nodup_append]
    refine ⟨hnd1, hnd2, ?_⟩
    intro x hx hy
    rcases hsub lh t x hx with hEq | hmem
    · exact hfll (hEq ▸ hy)
    · exact hdisj x hy hmem
  · intro x hx
    rw [hprio h0 tq.highprio t x]
    rcases hsub lh t x hx with hEq | hmem
    · rw [hEq]; exact hpr
    · exact hprioh x hmem
  · intro x hx
    rw [hprio h0 tq.highprio t x]
    exact hpriol x hx
  · intro a ha
    refine hframe a ?_
    simp only [List.mem_cons, not_or] at ha ⊢
    exact ⟨ha.1, fun hmem => ha.2 (List.mem_append.mpr (Or.inl hmem))⟩

/-- Dispatch lemma, low-priority branch. -/
theorem tq_dispatch_low
    (op : TaskHeap → task_deque → Nat → TaskHeap × task_deque)
    (f : List Nat → Nat → List Nat)
    (hop : ∀ (h : TaskHeap) (d : task_deque) (l : List Nat) (t : Nat),
      dequeRepr h d l → t ∉ l → (h t).prev = none → (h t).next = none →
      dequeRepr (op h d t).1 (op h d t).2 (f l t) ∧ heapFrame h (op h d t).1 (t :: l))
    (hprio : ∀ h d t a, ((op h d t).1 a).prio = (h a).prio)
    (hsub : ∀ l t, ∀ x ∈ f l t, x = t ∨ x ∈ l)
    {h0 : TaskHeap} {tq : dart_taskqueue_t} {lh ll : List Nat} {t : Nat}
    (hq : tqRepr h0 tq lh ll) (hf : t ∉ lh ++ ll)
    (hp : (h0 t).prev = none) (hn : (h0 t).next = none)
    (hpr : (h0 t).prio ≠ PRIO_HIGH) :
    tqRepr (op h0 tq.lowprio t).1 { tq with lowprio := (op h0 tq.lowprio t).2 }
      lh (f ll t) ∧
    heapFrame h0 (op h0 tq.lowprio t).1 (t :: (lh ++ ll)) := by
  obtain ⟨hrh, hrl, hnd, hprioh, hpriol⟩ := hq
  rw [List.mem_append] at hf
  push_neg at hf
  obtain ⟨hftl, hfll⟩ := hf
  obtain ⟨hrep, hframe⟩ := hop h0 tq.lowprio ll t hrl hfll hp hn
  have hdisj : ∀ a ∈ lh, a ∉ ll := fun a ha hb =>
    (List.disjoint_of_nodup_append hnd) ha hb
  refine ⟨⟨?_, hrep, ?_, ?_, ?_⟩, ?_⟩
  · refine dequeRepr_congr hrh ?_
    intro x hx
    refine hframe x ?_
    simp only [List.mem_cons, not_or]
    exact ⟨fun hEq => hftl (hEq ▸ hx), fun hmem => hdisj x hx hmem⟩
  · have hnd1 : (f ll t).Nodup := hrep.2.2
    have hnd2 : lh.Nodup := List.Nodup.of_append_left hnd
    rw [List.nodup_append]
    refine ⟨hnd2, hnd1, ?_⟩
    intro x hx hy
    rcases hsub ll t x hy with hEq | hmem
    · exact hftl (hEq ▸ hx)
    · exact hdisj x hx hmem
  · intro x hx
    rw [hprio h0 tq.lowprio t x]
    exact hprioh x hx
  · intro x hx
    rw [hprio h0 tq.lowprio t x]
    rcases hsub ll t x hx with hEq | hmem
    · rw [hEq]; exact hpr
    · exact hpriol x hmem
  · intro a ha
    refine hframe a ?_
    simp only [List.mem_cons, not_or] at ha ⊢
    exact ⟨ha.1, fun hmem => ha.2 (List.mem_append.mpr (Or.inr hmem))⟩

theorem tqRepr_null_links {h : TaskHeap} {tq : dart_taskqueue_t} {lh ll : List Nat}
    {t : Nat} (hq : tqRepr h tq lh ll) (hf : t ∉ lh ++ ll) :
    tqRepr (setPrev (setNext h t none) t none) tq lh ll := by
  obtain ⟨hrh, hrl, hnd, hprioh, hpriol⟩ := hq
  have hagree : ∀ x, x ≠ t → (setPrev (setNext h t none) t none) x = h x := by
    intro x hx
    rw [setPrev_other _ _ hx, setNext_other _ _ hx]
  have hpr : ∀ a, ((setPrev (setNext h t none) t none) a).prio = (h a).prio := by
    intro a
    rw [prio_setPrev, prio_setNext]
  rw [List.mem_append] at hf
  push_neg at hf
  exact ⟨dequeRepr_congr hrh (fun x hx => hagree x (fun e => hf.1 (e ▸ hx))),
    dequeRepr_congr hrl (fun x hx => hagree x (fun e => hf.2 (e ▸ hx))),
    hnd,
    fun x hx => by rw [hpr]; exact hprioh x hx,
    fun x hx => by rw [hpr]; exact hpriol x hx⟩

theorem insertIdxOfPos_le (len pos : Nat) : insertIdxOfPos len pos ≤ len := by
  rw [insertIdxOfPos]
  split <;> omega

theorem taskqueue_push_refines {h : TaskHeap} {tq : dart_taskqueue_t}
    {lh ll : List Nat} {t : Nat} (hq : tqRepr h tq lh ll) (hf : t ∉ lh ++ ll) :
    tqRepr (dart_tasking_taskqueue_push h tq t).1
      (dart_tasking_taskqueue_push h tq t).2
      (ghostPush h t lh ll).1 (ghostPush h t lh ll).2 ∧
    heapFrame h (dart_tasking_taskqueue_push h tq t).1 (t :: (lh ++ ll)) := by
  set h0 := setPrev (setNext h t none) t none with hh0
  have h0t_prev : (h0 t).prev = none := by rw [hh0, prev_setPrev_self]
  have h0t_next : (h0 t).next = none := by rw [hh0, next_setPrev, next_setNext_self]
  have h0prio : ∀ a, (h0 a).prio = (h a).prio := by
    intro a; rw [hh0, prio_setPrev, prio_setNext]
  have h0other : ∀ a, a ≠ t → h0 a = h a := by
    intro a hat; rw [hh0, setPrev_other _ _ hat, setNext_other _ _ hat]
  have hq0 : tqRepr h0 tq lh ll := tqRepr_null_links hq hf
  have hsub : ∀ (l : List Nat) (u : Nat), ∀ x ∈ u :: l, x = u ∨ x ∈ l := by
    intro l u x hx; simpa using hx
  have hopfact : ∀ (h : TaskHeap) (d : task_deque) (l : List Nat) (u : Nat),
      dequeRepr h d l → u ∉ l → (h u).prev = none → (h u).next = none →
      dequeRepr (task_deque_push h d u).1 (task_deque_push h d u).2 (u :: l) ∧
        heapFrame h (task_deque_push h d u).1 (u :: l) := by
    intro h d l u hr hfr hp hn
    exact task_deque_push_refines hr hfr hp hn
  by_cases hpr : (h t).prio = PRIO_HIGH
  · have hres : dart_tasking_taskqueue_push h tq t =
        ((task_deque_push h0 tq.highprio t).1,
         { tq with highprio := (task_deque_push h0 tq.highprio t).2 }) := by
      simp only [dart_tasking_taskqueue_push, ← hh0]
      rw [if_pos (show (h0 t).prio = PRIO_HIGH by rw [h0prio]; exact hpr)]
    have hG : ghostPush h t lh ll = (t :: lh, ll) := by simp [ghostPush, hpr]
    rw [hres, hG]
    have hmain := tq_dispatch_high task_deque_push (fun l u => u :: l) hopfact
      (fun h d u a => task_deque_push_prio h d u a) hsub
      hq0 hf h0t_prev h0t_next (by rw [h0prio]; exact hpr)
    refine ⟨hmain.1, ?_⟩
    intro a ha
    have hat : a ≠ t := fun hEq => ha (by simp [hEq])
    rw [hmain.2 a ha, h0other a hat]
  · have hres : dart_tasking_taskqueue_push h tq t =
        ((task_deque_push h0 tq.lowprio t).1,
         { tq with lowprio := (task_deque_push h0 tq.lowprio t).2 }) := by
      simp only [dart_tasking_taskqueue_push, ← hh0]
      rw [if_neg (show ¬ (h0 t).prio = PRIO_HIGH by rw [h0prio]; exact hpr)]
    have hG : ghostPush h t lh ll = (lh, t :: ll) := by simp [ghostPush, hpr]
    rw [hres, hG]
    have hmain := tq_dispatch_low task_deque_push (fun l u => u :: l) hopfact
      (fun h d u a => task_deque_push_prio h d u a) hsub
      hq0 hf h0t_prev h0t_next (by rw [h0prio]; exact hpr)
    refine ⟨hmain.1, ?_⟩
    intro a ha
    have hat : a ≠ t := fun hEq => ha (by simp [hEq])
    rw [hmain.2 a ha, h0other a hat]

theorem taskqueue_pushback_refines {h : TaskHeap} {tq : dart_taskqueue_t}
    {lh ll : List Nat} {t : Nat} (hq : tqRepr h tq lh ll) (hf : t ∉ lh ++ ll) :
    tqRepr (dart_tasking_taskqueue_pushback h tq t).1
      (dart_tasking_taskqueue_pushback h tq t).2
      (ghostPushback h t lh ll).1 (ghostPushback h t lh ll).2 ∧
    heapFrame h (dart_tasking_taskqueue_pushback h tq t).1 (t :: (lh ++ ll)) := by
  set h0 := setPrev (setNext h t none) t none with hh0
  have h0t_prev : (h0 t).prev = none := by rw [hh0, prev_setPrev_self]
  have h0t_next : (h0 t).next = none := by rw [hh0, next_setPrev, next_setNext_self]
  have h0prio : ∀ a, (h0 a).prio = (h a).prio := by
    intro a; rw [hh0, prio_setPrev, prio_setNext]
  have h0other : ∀ a, a ≠ t → h0 a = h a := by
    intro a hat; rw [hh0, setPrev_other _ _ hat, setNext_other _ _ hat]
  have hq0 : tqRepr h0 tq lh ll := tqRepr_null_links hq hf
  have hsub : ∀ (l : List Nat) (u : Nat), ∀ x ∈ l ++ [u], x = u ∨ x ∈ l := by
    intro l u x hx
    rcases List.mem_append.mp hx with hx | hx
    · exact Or.inr hx
    · exact Or.inl (by simpa using hx)
  have hopfact : ∀ (h : TaskHeap) (d : task_deque) (l : List Nat) (u : Nat),
      dequeRepr h d l → u ∉ l → (h u).prev = none → (h u).next = none →
      dequeRepr (task_deque_pushback h d u).1 (task_deque_pushback h d u).2 (l ++ [u]) ∧
        heapFrame h (task_deque_pushback h d u).1 (u :: l) := by
    intro h d l u hr hfr hp hn
    exact task_deque_pushback_refines hr hfr hp hn
  by_cases hpr : (h t).prio = PRIO_HIGH
  · have hres : dart_tasking_taskqueue_pushback h tq t =
        ((task_deque_pushback h0 tq.highprio t).1,
         { tq with highprio := (task_deque_pushback h0 tq.highprio t).2 }) := by
      simp only [dart_tasking_taskqueue_pushback, ← hh0]
      rw [if_pos (show (h0 t).prio = PRIO_HIGH by rw [h0prio]; exact hpr)]
    have hG : ghostPushback h t lh ll = (lh ++ [t], ll) := by simp [ghostPushback, hpr]
    rw [hres, hG]
    have hmain := tq_dispatch_high task_deque_pushback (fun l u => l ++ [u]) hopfact
      (fun h d u a => task_deque_pushback_prio h d u a) hsub
      hq0 hf h0t_prev h0t_next (by rw [h0prio]; exact hpr)
    refine ⟨hmain.1, ?_⟩
    intro a ha
    have hat : a ≠ t := fun hEq => ha (by simp [hEq])
    rw [hmain.2 a ha, h0other a hat]
  · have hres : dart_tasking_taskqueue_pushback h tq t =
        ((task_deque_pushback h0 tq.lowprio t).1,
         { tq with lowprio := (task_deque_pushback h0 tq.lowprio t).2 }) := by
      simp only [dart_tasking_taskqueue_pushback, ← hh0]
      rw [if_neg (show ¬ (h0 t).prio = PRIO_HIGH by rw [h0prio]; exact hpr)]
    have hG : ghostPushback h t lh ll = (lh, ll ++ [t]) := by simp [ghostPushback, hpr]
    rw [hres, hG]
    have hmain := tq_dispatch_low task_deque_pushback (fun l u => l ++ [u]) hopfact
      (fun h d u a => task_deque_pushback_prio h d u a) hsub
      hq0 hf h0t_prev h0t_next (by rw [h0prio]; exact hpr)
    refine ⟨hmain.1, ?_⟩
    intro a ha
    have hat : a ≠ t := fun hEq => ha (by simp [hEq])
    rw [hmain.2 a ha, h0other a hat]

theorem taskqueue_insert_refines {h : TaskHeap} {tq : dart_taskqueue_t}
    {lh ll : List Nat} {t : Nat} {pos : Nat}
    (hq : tqRepr h tq lh ll) (hf : t ∉ lh ++ ll) :
    tqRepr (dart_tasking_taskqueue_insert h tq t pos).1
      (dart_tasking_taskqueue_insert h tq t pos).2
      (ghostInsert h t pos lh ll).1 (ghostInsert h t pos lh ll).2 ∧
    heapFrame h (dart_tasking_taskqueue_insert h tq t pos).1
      (t :: (lh ++ ll)) := by
  set h0 := setPrev (setNext h t none) t none with hh0
  have h0t_prev : (h0 t).prev = none := by rw [hh0, prev_setPrev_self]
  have h0t_next : (h0 t).next = none := by rw [hh0, next_setPrev, next_setNext_self]
  have h0prio : ∀ a, (h0 a).prio = (h a).prio := by
    intro a; rw [hh0, prio_setPrev, prio_setNext]
  have h0other : ∀ a, a ≠ t → h0 a = h a := by
    intro a hat; rw [hh0, setPrev_other _ _ hat, setNext_other _ _ hat]
  have hq0 : tqRepr h0 tq lh ll := tqRepr_null_links hq hf
  have hsub : ∀ (l : List Nat) (u : Nat),
      ∀ x ∈ List.insertIdx (insertIdxOfPos l.length pos) u l, x = u ∨ x ∈ l := by
    intro l u x hx
    exact (List.mem_insertIdx (insertIdxOfPos_le l.length pos)).mp hx
  have hopfact : ∀ (h : TaskHeap) (d : task_deque) (l : List Nat) (u : Nat),
      dequeRepr h d l → u ∉ l → (h u).prev = none → (h u).next = none →
      dequeRepr (task_deque_insert h d u pos).1 (task_deque_insert h d u pos).2
        (List.insertIdx (insertIdxOfPos l.length pos) u l) ∧
        heapFrame h (task_deque_insert h d u pos).1 (u :: l) := by
    intro h d l u hr hfr hp hn
    exact task_deque_insert_refines hr hfr hp hn
  by_cases hpr : (h t).prio = PRIO_HIGH
  · have hres : dart_tasking_taskqueue_insert h tq t pos =
        ((task_deque_insert h0 tq.highprio t pos).1,
         { tq with highprio := (task_deque_insert h0 tq.highprio t pos).2 }) := by
      simp only [dart_tasking_taskqueue_insert, ← hh0]
      rw [if_pos (show (h0 t).prio = PRIO_HIGH by rw [h0prio]; exact hpr)]
    have hG : ghostInsert h t pos lh ll =
        (List.insertIdx (insertIdxOfPos lh.length pos) t lh, ll) := by
      simp [ghostInsert, hpr]
    rw [hres, hG]
    have hmain := tq_dispatch_high (fun h d u => task_deque_insert h d u pos)
      (fun l u => List.insertIdx (insertIdxOfPos l.length pos) u l) hopfact
      (fun h d u a => task_deque_insert_prio h d u pos a) hsub
      hq0 hf h0t_prev h0t_next (by rw [h0prio]; exact hpr)
    refine ⟨hmain.1, ?_⟩
    intro a ha
    have hat : a ≠ t := fun hEq => ha (by simp [hEq])
    rw [hmain.2 a ha, h0other a hat]
  · have hres : dart_tasking_taskqueue_insert h tq t pos =
        ((task_deque_insert h0 tq.lowprio t pos).1,
         { tq with lowprio := (task_deque_insert h0 tq.lowprio t pos).2 }) := by
      simp only [dart_tasking_taskqueue_insert, ← hh0]
      rw [if_neg (show ¬ (h0 t).prio = PRIO_HIGH by rw [h0prio]; exact hpr)]
    have hG : ghostInsert h t pos lh ll =
        (lh, List.insertIdx (insertIdxOfPos ll.length pos) t ll) := by
      simp [ghostInsert, hpr]
    rw [hres, hG]
    have hmain := tq_dispatch_low (fun h d u => task_deque_insert h d u pos)
      (fun l u => List.insertIdx (insertIdxOfPos l.length pos) u l) hopfact
      (fun h d u a => task_deque_insert_prio h d u pos a) hsub
      hq0 hf h0t_prev h0t_next (by rw [h0prio]; exact hpr)
    refine ⟨hmain.1, ?_⟩
    intro a ha
    have hat : a ≠ t := fun hEq => ha (by simp [hEq])
    rw [hmain.2 a ha, h0other a hat]

theorem heapFrame_nil_eq {h h' : TaskHeap} (hfr : heapFrame h h' []) : h' = h := by
  funext a
  exact hfr a (by simp)

theorem taskqueue_pop_refines {h : TaskHeap} {tq : dart_taskqueue_t}
    {lh ll : List Nat} (hq : tqRepr h tq lh ll) :
    (dart_tasking_taskqueue_pop h tq).1 = (lh ++ ll).head? ∧
    tqRepr (dart_tasking_taskqueue_pop h tq).2.1
      (dart_tasking_taskqueue_pop h tq).2.2
      (ghostPop lh ll).1 (ghostPop lh ll).2 ∧
    heapFrame h (dart_tasking_taskqueue_pop h tq).2.1 (lh ++ ll) := by
  obtain ⟨hrh, hrl, hnd, hprioh, hpriol⟩ := hq
  cases lh with
  | cons x lh' =>
      obtain ⟨hret, hrep, hframe⟩ := task_deque_pop_refines hrh
      have hres : dart_tasking_taskqueue_pop h tq =
          (some x, (task_deque_pop h tq.highprio).2.1,
           { tq with highprio := (task_deque_pop h tq.highprio).2.2 }) := by
        simp only [dart_tasking_taskqueue_pop, hret, List.head?_cons]
      rw [hres]
      have hdisj : ∀ a ∈ ll, a ∉ x :: lh' := fun a ha hb =>
        (List.disjoint_of_nodup_append hnd) hb ha
      refine ⟨by simp, ⟨hrep, ?_, ?_, ?_, ?_⟩, ?_⟩
      · exact dequeRepr_congr hrl (fun a ha => hframe a (hdisj a ha))
      · have : ((x :: lh') ++ ll).Nodup := hnd
        rw [List.cons_append, List.nodup_cons] at this
        exact this.2
      · intro a ha
        rw [task_deque_pop_prio]
        refine hprioh a ?_
        simp only [ghostPop] at ha
        simp [ha]
      · intro a ha
        rw [task_deque_pop_prio]
        refine hpriol a ?_
        simpa [ghostPop] using ha
      · intro a ha
        exact hframe a (fun hmem => ha (List.mem_append.mpr (Or.inl hmem)))
  | nil =>
      obtain ⟨hret, hrep, hframe⟩ := task_deque_pop_refines hrh
      have hheq : (task_deque_pop h tq.highprio).2.1 = h :=
        heapFrame_nil_eq hframe
      have hres : dart_tasking_taskqueue_pop h tq =
          ((task_deque_pop h tq.lowprio).1, (task_deque_pop h tq.lowprio).2.1,
           { tq with lowprio := (task_deque_pop h tq.lowprio).2.2 }) := by
        simp only [dart_tasking_taskqueue_pop, hret, List.head?_nil]
      rw [hres]
      obtain ⟨hretl, hrepl, hframel⟩ := task_deque_pop_refines hrl
      refine ⟨by simpa using hretl, ⟨?_, ?_, ?_, ?_, ?_⟩, ?_⟩
      · exact dequeRepr_congr hrh (fun x hx => absurd hx (List.not_mem_nil x))
      · exact hrepl
      · simp only [ghostPop]
        have : ll.Nodup := List.Nodup.of_append_right hnd
        simpa using this.sublist (List.tail_sublist ll)
      · intro a ha
        simp [ghostPop] at ha
      · intro a ha
        rw [task_deque_pop_prio]
        refine hpriol a ?_
        simp only [ghostPop] at ha
        exact List.mem_of_mem_tail ha
      · intro a ha
        exact hframel a (fun hmem => ha (by simpa using hmem))

theorem taskqueue_popback_refines {h : TaskHeap} {tq : dart_taskqueue_t}
    {lh ll : List Nat} (hq : tqRepr h tq lh ll) :
    (dart_tasking_taskqueue_popback h tq).1 = (ll ++ lh).getLast? ∧
    tqRepr (dart_tasking_taskqueue_popback h tq).2.1
      (dart_tasking_taskqueue_popback h tq).2.2
      (ghostPopback lh ll).1 (ghostPopback lh ll).2 ∧
    heapFrame h (dart_tasking_taskqueue_popback h tq).2.1 (lh ++ ll) := by
  obtain ⟨hrh, hrl, hnd, hprioh, hpriol⟩ := hq
  cases hlh : lh with
  | cons x lh' =>
      obtain ⟨hret, hrep, hframe⟩ := task_deque_popback_refines hrh
      rw [hlh] at hret hrep hframe
      obtain ⟨tl, hgl⟩ : ∃ tl, (x :: lh').getLast? = some tl := by
        cases hgl : (x :: lh').getLast? with
        | none => simp at hgl
        | some tl => exact ⟨tl, rfl⟩
      have hres : dart_tasking_taskqueue_popback h tq =
          (some tl, (task_deque_popback h tq.highprio).2.1,
           { tq with highprio := (task_deque_popback h tq.highprio).2.2 }) := by
        simp only [dart_tasking_taskqueue_popback, hret, hgl]
      rw [hres]
      have hdisj : ∀ a ∈ ll, a ∉ x :: lh' := fun a ha hb =>
        (List.disjoint_of_nodup_append (hlh ▸ hnd)) hb ha
      refine ⟨?_, ⟨?_, ?_, ?_, ?_, ?_⟩, ?_⟩
      · rw [List.getLast?_append_of_ne_nil _ (by simp), hgl]
      · simpa [ghostPopback] using hrep
      · exact dequeRepr_congr hrl (fun a ha => hframe a (hdisj a ha))
      · show ((ghostPopback (x :: lh') ll).1 ++ (ghostPopback (x :: lh') ll).2).Nodup
        simp only [ghostPopback]
        refine List.Nodup.sublist ?_ (hlh ▸ hnd)
        exact List.Sublist.append (List.dropLast_sublist (x :: lh'))
          (List.Sublist.refl ll)
      · intro a ha
        rw [task_deque_popback_prio]
        refine hprioh a ?_
        rw [hlh]
        simp only [ghostPopback] at ha
        exact List.dropLast_sublist (x :: lh') |>.mem ha
      · intro a ha
        rw [task_deque_popback_prio]
        refine hpriol a ?_
        simpa [ghostPopback] using ha
      · intro a ha
        simp only [List.cons_append, List.mem_cons, List.mem_append, not_or] at ha
        refine hframe a ?_
        simp only [List.mem_cons, not_or]
        exact ⟨ha.1, ha.2.1⟩
  | nil =>
      obtain ⟨hret, hrep, hframe⟩ := task_deque_popback_refines hrh
      rw [hlh] at hret hrep hframe
      have hheq : (task_deque_popback h tq.highprio).2.1 = h :=
        heapFrame_nil_eq hframe
      have hres : dart_tasking_taskqueue_popback h tq =
          ((task_deque_popback h tq.lowprio).1,
           (task_deque_popback h tq.lowprio).2.1,
           { tq with lowprio := (task_deque_popback h tq.lowprio).2.2 }) := by
        simp only [dart_tasking_taskqueue_popback, hret, List.getLast?_nil]
      rw [hres]
      obtain ⟨hretl, hrepl, hframel⟩ := task_deque_popback_refines hrl
      refine ⟨by simpa using hretl, ⟨?_, ?_, ?_, ?_, ?_⟩, ?_⟩
      · rw [hlh] at hrh
        exact dequeRepr_congr hrh (fun x hx => absurd hx (List.not_mem_nil x))
      · exact hrepl
      · show ((ghostPopback [] ll).1 ++ (ghostPopback [] ll).2).Nodup
        simp only [ghostPopback]
        refine List.Nodup.sublist ?_ (List.Nodup.of_append_right (hlh ▸ hnd))
        simpa using List.dropLast_sublist ll
      · intro a ha
        simp [ghostPopback] at ha
      · intro a ha
        rw [task_deque_popback_prio]
        refine hpriol a ?_
        simp only [ghostPopback] at ha
        exact (List.dropLast_sublist ll).mem ha
      · intro a ha
        exact hframel a (fun hmem => ha (by simpa using hmem))

theorem lastPtr_none (l : List Nat) : lastPtr none l = l.getLast? := by
  rw [lastPtr]
  cases l.getLast? <;> rfl

theorem taskqueue_remove_refines {h : TaskHeap} {tq : dart_taskqueue_t}
    {lh ll : List Nat} {t : Nat} (hq : tqRepr h tq lh ll) (hmem : t ∈ lh ++ ll) :
    tqRepr (dart_tasking_taskqueue_remove h tq t).1
      (dart_tasking_taskqueue_remove h tq t).2
      (ghostRemove t lh ll).1 (ghostRemove t lh ll).2 ∧
    heapFrame h (dart_tasking_taskqueue_remove h tq t).1 (lh ++ ll) := by
  obtain ⟨hrh, hrl, hnd, hprioh, hpriol⟩ := hq
  have hdisj : ∀ a ∈ lh, a ∉ ll := fun a ha =>
    (List.disjoint_of_nodup_append hnd) ha
  by_cases hmemh : t ∈ lh
  · -- removal from the high-priority deque
    have htnll : t ∉ ll := hdisj t hmemh
    obtain ⟨l₁, l₂, hsplit⟩ := List.append_of_mem hmemh
    obtain ⟨hpt, hnt, hseg, hfr⟩ := remove_unlink_refines (hsplit ▸ hrh)
    have hndh : lh.Nodup := List.Nodup.of_append_left hnd
    have htnl₁ : t ∉ l₁ := fun hm =>
      (List.disjoint_of_nodup_append (hsplit ▸ hndh)) hm (by simp)
    have htnl₂ : t ∉ l₂ :=
      (List.nodup_cons.mp (List.Nodup.of_append_right (hsplit ▸ hndh))).1
    have hhd : tq.highprio.head = headPtr lh none := segb_head hrh.1
    have htlq : tq.highprio.tail = lh.getLast? := hrh.2.1
    have hhdl : tq.lowprio.head = headPtr ll none := segb_head hrl.1
    have htll : tq.lowprio.tail = ll.getLast? := hrl.2.1
    -- the low-priority head/tail never match the removed task
    have hcondlh : ¬ (some t = tq.lowprio.head) := by
      rw [hhdl]
      cases ll with
      | nil => simp [headPtr]
      | cons y ll' =>
          simp only [headPtr]
          intro hEq
          injection hEq with hEq2
          exact htnll (by simp [hEq2])
    have hcondlt : ¬ (some t = tq.lowprio.tail) := by
      rw [htll]
      intro hEq
      exact htnll (List.mem_of_mem_getLast? (by rw [← hEq]; rfl))
    -- head fixup
    have hheadeq :
        (if some t = tq.highprio.head then (h t).next else tq.highprio.head) =
          headPtr (l₁ ++ l₂) none := by
      cases l₁ with
      | nil =>
          have hth : tq.highprio.head = some t := by
            rw [hhd, hsplit]; rfl
          rw [if_pos hth.symm, hnt]; rfl
      | cons c l₁' =>
          have hch : tq.highprio.head = some c := by
            rw [hhd, hsplit]; rfl
          have hct : c ≠ t := fun hEq => htnl₁ (by simp [hEq])
          rw [if_neg (by rw [hch]; simp [hct.symm]), hch]
          rfl
    -- tail fixup
    have htaileq :
        (if some t = tq.highprio.tail then (h t).prev else tq.highprio.tail) =
          (l₁ ++ l₂).getLast? := by
      cases l₂ with
      | nil =>
          have htt : tq.highprio.tail = some t := by
            rw [htlq, hsplit, List.getLast?_concat]
          rw [if_pos htt.symm, hpt, lastPtr_none, List.append_nil]
      | cons n l₂' =>
          have hgt : tq.highprio.tail = (n :: l₂').getLast? := by
            rw [htlq, hsplit, List.getLast?_append_of_ne_nil _ (by simp),
              List.getLast?_cons_cons]
          have hnomem : ¬ (some t = tq.highprio.tail) := by
            rw [hgt]
            intro hEq
            exact htnl₂ (List.mem_of_mem_getLast? (by rw [← hEq]; rfl))
          rw [if_neg hnomem, hgt, List.getLast?_append_of_ne_nil _ (by simp)]
    have hres : dart_tasking_taskqueue_remove h tq t =
        (remove_unlink_heap h t,
         { highprio :=
             { head := if some t = tq.highprio.head then (h t).next
                       else tq.highprio.head
               tail := if some t = tq.highprio.tail then (h t).prev
                       else tq.highprio.tail }
           lowprio := tq.lowprio }) := by
      simp only [dart_tasking_taskqueue_remove]
      by_cases hc1 : some t = tq.highprio.head
      · by_cases hc2 : some t = tq.highprio.tail
        · simp only [if_pos hc1, if_pos hc2]
        · simp only [if_pos hc1, if_neg hc2, if_neg hcondlt]
      · by_cases hc2 : some t = tq.highprio.tail
        · simp only [if_neg hc1, if_neg hcondlh, if_pos hc2]
        · simp only [if_neg hc1, if_neg hcondlh, if_neg hc2, if_neg hcondlt]
    have hG : ghostRemove t lh ll = (l₁ ++ l₂, ll) := by
      rw [ghostRemove, if_pos hmemh, hsplit,
        List.erase_append_right _ (by simpa using htnl₁), List.erase_cons_head]
    rw [hres, hG, hheadeq, htaileq]
    have hfr' : heapFrame h (remove_unlink_heap h t) (lh ++ ll) := by
      intro a ha
      refine hfr a ?_
      rw [hsplit] at ha
      exact fun hm => ha (List.mem_append.mpr (Or.inl hm))
    have hsublh : List.Sublist (l₁ ++ l₂) lh := by
      rw [hsplit]
      exact List.Sublist.append (List.Sublist.refl l₁) (List.sublist_cons_self t l₂)
    refine ⟨⟨⟨?_, ?_, ?_⟩, ?_, ?_, ?_, ?_⟩, hfr'⟩
    · exact hseg
    · rfl
    · exact List.Nodup.sublist hsublh hndh
    · refine dequeRepr_congr hrl ?_
      intro a ha
      refine hfr a ?_
      intro hm
      have ham : a ∈ lh := by rw [hsplit]; exact hm
      exact hdisj a ham ha
    · exact List.Nodup.sublist
        (List.Sublist.append hsublh (List.Sublist.refl ll)) hnd
    · intro a ha
      rw [remove_unlink_heap_prio]
      exact hprioh a (hsublh.mem ha)
    · intro a ha
      rw [remove_unlink_heap_prio]
      exact hpriol a ha
  · -- removal from the low-priority deque
    have hmemll : t ∈ ll := by
      rcases List.mem_append.mp hmem with hm | hm
      · exact absurd hm hmemh
      · exact hm
    obtain ⟨l₁, l₂, hsplit⟩ := List.append_of_mem hmemll
    obtain ⟨hpt, hnt, hseg, hfr⟩ := remove_unlink_refines (hsplit ▸ hrl)
    have hndl : ll.Nodup := List.Nodup.of_append_right hnd
    have htnl₁ : t ∉ l₁ := fun hm =>
      (List.disjoint_of_nodup_append (hsplit ▸ hndl)) hm (by simp)
    have htnl₂ : t ∉ l₂ :=
      (List.nodup_cons.mp (List.Nodup.of_append_right (hsplit ▸ hndl))).1
    have hhd : tq.lowprio.head = headPtr ll none := segb_head hrl.1
    have htlq : tq.lowprio.tail = ll.getLast? := hrl.2.1
    have hhdh : tq.highprio.head = headPtr lh none := segb_head hrh.1
    have htlh : tq.highprio.tail = lh.getLast? := hrh.2.1
    have hcondhh : ¬ (some t = tq.highprio.head) := by
      rw [hhdh]
      cases lh with
      | nil => simp [headPtr]
      | cons y lh' =>
          simp only [headPtr]
          intro hEq
          injection hEq with hEq2
          exact hmemh (by simp [hEq2])
    have hcondht : ¬ (some t = tq.highprio.tail) := by
      rw [htlh]
      intro hEq
      exact hmemh (List.mem_of_mem_getLast? (by rw [← hEq]; rfl))
    have hheadeq :
        (if some t = tq.lowprio.head then (h t).next else tq.lowprio.head) =
          headPtr (l₁ ++ l₂) none := by
      cases l₁ with
      | nil =>
          have hth : tq.lowprio.head = some t := by
            rw [hhd, hsplit]; rfl
          rw [if_pos hth.symm, hnt]; rfl
      | cons c l₁' =>
          have hch : tq.lowprio.head = some c := by
            rw [hhd, hsplit]; rfl
          have hct : c ≠ t := fun hEq => htnl₁ (by simp [hEq])
          rw [if_neg (by rw [hch]; simp [hct.symm]), hch]
          rfl
    have htaileq :
        (if some t = tq.lowprio.tail then (h t).prev else tq.lowprio.tail) =
          (l₁ ++ l₂).getLast? := by
      cases l₂ with
      | nil =>
          have htt : tq.lowprio.tail = some t := by
            rw [htlq, hsplit, List.getLast?_concat]
          rw [if_pos htt.symm, hpt, lastPtr_none, List.append_nil]
      | cons n l₂' =>
          have hgt : tq.lowprio.tail = (n :: l₂').getLast? := by
            rw [htlq, hsplit, List.getLast?_append_of_ne_nil _ (by simp),
              List.getLast?_cons_cons]
          have hnomem : ¬ (some t = tq.lowprio.tail) := by
            rw [hgt]
            intro hEq
            exact htnl₂ (List.mem_of_mem_getLast? (by rw [← hEq]; rfl))
          rw [if_neg hnomem, hgt, List.getLast?_append_of_ne_nil _ (by simp)]
    have hres : dart_tasking_taskqueue_remove h tq t =
        (remove_unlink_heap h t,
         { highprio := tq.highprio
           lowprio :=
             { head := if some t = tq.lowprio.head then (h t).next
                       else tq.lowprio.head
               tail := if some t = tq.lowprio.tail then (h t).prev
                       else tq.lowprio.tail } }) := by
      simp only [dart_tasking_taskqueue_remove]
      by_cases hc1 : some t = tq.lowprio.head
      · by_cases hc2 : some t = tq.lowprio.tail
        · simp only [if_neg hcondhh, if_pos hc1, if_neg hcondht, if_pos hc2]
        · simp only [if_neg hcondhh, if_pos hc1, if_neg hcondht, if_neg hc2]
      · by_cases hc2 : some t = tq.lowprio.tail
        · simp only [if_neg hcondhh, if_neg hc1, if_neg hcondht, if_pos hc2]
        · simp only [if_neg hcondhh, if_neg hc1, if_neg hcondht, if_neg hc2]
    have hG : ghostRemove t lh ll = (lh, l₁ ++ l₂) := by
      rw [ghostRemove, if_neg hmemh, hsplit,
        List.erase_append_right _ (by simpa using htnl₁), List.erase_cons_head]
    rw [hres, hG, hheadeq, htaileq]
    have hfr' : heapFrame h (remove_unlink_heap h t) (lh ++ ll) := by
      intro a ha
      refine hfr a ?_
      rw [hsplit] at ha
      exact fun hm => ha (List.mem_append.mpr (Or.inr hm))
    have hsubll : List.Sublist (l₁ ++ l₂) ll := by
      rw [hsplit]
      exact List.Sublist.append (List.Sublist.refl l₁) (List.sublist_cons_self t l₂)
    refine ⟨⟨?_, ⟨?_, ?_, ?_⟩, ?_, ?_, ?_⟩, hfr'⟩
    · refine dequeRepr_congr hrh ?_
      intro a ha
      refine hfr a ?_
      intro hm
      have ham : a ∈ ll := by rw [hsplit]; exact hm
      exact hdisj a ha ham
    · exact hseg
    · rfl
    · exact List.Nodup.sublist hsubll hndl
    · exact List.Nodup.sublist
        (List.Sublist.append (List.Sublist.refl lh) hsubll) hnd
    · intro a ha
      rw [remove_unlink_heap_prio]
      exact hprioh a ha
    · intro a ha
      rw [remove_unlink_heap_prio]
      exact hpriol a (hsubll.mem ha)

theorem taskqueue_move_refines {h : TaskHeap} {dst src : dart_taskqueue_t}
    {ldh ldl lsh lsl : List Nat}
    (hd : tqRepr h dst ldh ldl) (hs : tqRepr h src lsh lsl)
    (hnd : (ldh ++ ldl ++ (lsh ++ lsl)).Nodup) :
    tqRepr (dart_tasking_taskqueue_move h dst src).1
      (dart_tasking_taskqueue_move h dst src).2.1 (lsh ++ ldh) (lsl ++ ldl) ∧
    tqRepr (dart_tasking_taskqueue_move h dst src).1
      (dart_tasking_taskqueue_move h dst src).2.2 [] [] ∧
    heapFrame h (dart_tasking_taskqueue_move h dst src).1
      (ldh ++ ldl ++ (lsh ++ lsl)) := by
  obtain ⟨hrdh, hrdl, hndd, hpdh, hpdl⟩ := hd
  obtain ⟨hrsh, hrsl, hnds, hpsh, hpsl⟩ := hs
  have hABCD : (ldh ++ ldl).Disjoint (lsh ++ lsl) :=
    List.disjoint_of_nodup_append hnd
  have hA : ldh.Nodup := List.Nodup.of_append_left (List.Nodup.of_append_left hnd)
  have hB : ldl.Nodup := List.Nodup.of_append_right (List.Nodup.of_append_left hnd)
  have hC : lsh.Nodup := List.Nodup.of_append_left (List.Nodup.of_append_right hnd)
  have hD : lsl.Nodup := List.Nodup.of_append_right (List.Nodup.of_append_right hnd)
  have hAB : ldh.Disjoint ldl :=
    List.disjoint_of_nodup_append (List.Nodup.of_append_left hnd)
  have hCD : lsh.Disjoint lsl :=
    List.disjoint_of_nodup_append (List.Nodup.of_append_right hnd)
  have hAC : ldh.Disjoint lsh := by
    intro a ha hb
    exact hABCD (List.mem_append.mpr (Or.inl ha)) (List.mem_append.mpr (Or.inl hb))
  have hAD : ldh.Disjoint lsl := by
    intro a ha hb
    exact hABCD (List.mem_append.mpr (Or.inl ha)) (List.mem_append.mpr (Or.inr hb))
  have hBC : ldl.Disjoint lsh := by
    intro a ha hb
    exact hABCD (List.mem_append.mpr (Or.inr ha)) (List.mem_append.mpr (Or.inl hb))
  have hBD : ldl.Disjoint lsl := by
    intro a ha hb
    exact hABCD (List.mem_append.mpr (Or.inr ha)) (List.mem_append.mpr (Or.inr hb))
  have hnd1 : (lsh ++ ldh).Nodup := by
    rw [List.nodup_append]
    exact ⟨hC, hA, hAC.symm⟩
  obtain ⟨hr1d, hr1s, hfr1⟩ := task_deque_move_refines hrdh hrsh hnd1
  have hrdl1 : dequeRepr (task_deque_move h dst.highprio src.highprio).1
      dst.lowprio ldl := by
    refine dequeRepr_congr hrdl (fun x hx => hfr1 x (fun hm => ?_))
    rcases List.mem_append.mp hm with hm | hm
    · exact hBC hx hm
    · exact hAB hm hx
  have hrsl1 : dequeRepr (task_deque_move h dst.highprio src.highprio).1
      src.lowprio lsl := by
    refine dequeRepr_congr hrsl (fun x hx => hfr1 x (fun hm => ?_))
    rcases List.mem_append.mp hm with hm | hm
    · exact hCD hm hx
    · exact hAD hm hx
  have hnd2 : (lsl ++ ldl).Nodup := by
    rw [List.nodup_append]
    exact ⟨hD, hB, hBD.symm⟩
  obtain ⟨hr2d, hr2s, hfr2⟩ := task_deque_move_refines hrdl1 hrsl1 hnd2
  have hr1d' : dequeRepr
      (task_deque_move (task_deque_move h dst.highprio src.highprio).1
        dst.lowprio src.lowprio).1
      (task_deque_move h dst.highprio src.highprio).2.1 (lsh ++ ldh) := by
    refine dequeRepr_congr hr1d (fun x hx => hfr2 x (fun hm => ?_))
    rcases List.mem_append.mp hx with hx | hx
    · rcases List.mem_append.mp hm with hm | hm
      · exact hCD hx hm
      · exact hBC hm hx
    · rcases List.mem_append.mp hm with hm | hm
      · exact hAD hx hm
      · exact hAB hx hm
  have hr1s' : dequeRepr
      (task_deque_move (task_deque_move h dst.highprio src.highprio).1
        dst.lowprio src.lowprio).1
      (task_deque_move h dst.highprio src.highprio).2.2 [] :=
    dequeRepr_congr hr1s (fun x hx => absurd hx (List.not_mem_nil x))
  have hprio2 : ∀ a,
      (((task_deque_move (task_deque_move h dst.highprio src.highprio).1
        dst.lowprio src.lowprio).1) a).prio = (h a).prio := fun a => by
    rw [task_deque_move_prio, task_deque_move_prio]
  have hfrAll : heapFrame h
      (task_deque_move (task_deque_move h dst.highprio src.highprio).1
        dst.lowprio src.lowprio).1
      (ldh ++ ldl ++ (lsh ++ lsl)) := by
    intro a ha
    simp only [List.mem_append, not_or] at ha
    obtain ⟨⟨hnA, hnB⟩, hnC, hnD⟩ := ha
    have h1 : a ∉ lsh ++ ldh := by
      simp only [List.mem_append, not_or]
      exact ⟨hnC, hnA⟩
    have h2 : a ∉ lsl ++ ldl := by
      simp only [List.mem_append, not_or]
      exact ⟨hnD, hnB⟩
    rw [hfr2 a h2, hfr1 a h1]
  have hres : dart_tasking_taskqueue_move h dst src =
      ((task_deque_move (task_deque_move h dst.highprio src.highprio).1
          dst.lowprio src.lowprio).1,
       { highprio := (task_deque_move h dst.highprio src.highprio).2.1
         lowprio := (task_deque_move (task_deque_move h dst.highprio
           src.highprio).1 dst.lowprio src.lowprio).2.1 },
       { highprio := (task_deque_move h dst.highprio src.highprio).2.2
         lowprio := (task_deque_move (task_deque_move h dst.highprio
           src.highprio).1 dst.lowprio src.lowprio).2.2 }) := rfl
  rw [hres]
  refine ⟨⟨hr1d', hr2d, ?_, ?_, ?_⟩, ⟨hr1s', hr2s, by simp, ?_, ?_⟩, hfrAll⟩
  · rw [List.nodup_append]
    refine ⟨hnd1, hnd2, ?_⟩
    intro a ha hm
    rcases List.mem_append.mp ha with ha | ha
    · rcases List.mem_append.mp hm with hm | hm
      · exact hCD ha hm
      · exact hBC hm ha
    · rcases List.mem_append.mp hm with hm | hm
      · exact hAD ha hm
      · exact hAB ha hm
  · intro a ha
    rw [hprio2 a]
    rcases List.mem_append.mp ha with ha | ha
    · exact hpsh a ha
    · exact hpdh a ha
  · intro a ha
    rw [hprio2 a]
    rcases List.mem_append.mp ha with ha | ha
    · exact hpsl a ha
    · exact hpdl a ha
  · intro a ha
    exact absurd ha (List.not_mem_nil a)
  · intro a ha
    exact absurd ha (List.not_mem_nil a)

/-! ## Invariant preservation along queue traces -/

theorem ghostPush_perm (h : TaskHeap) (t : Nat) (lh ll : List Nat) :
    List.Perm ((ghostPush h t lh ll).1 ++ (ghostPush h t lh ll).2)
      (t :: (lh ++ ll)) := by
  rw [ghostPush]
  split
  · exact List.Perm.refl _
  · exact List.perm_middle

theorem ghostPushback_perm (h : TaskHeap) (t : Nat) (lh ll : List Nat) :
    List.Perm ((ghostPushback h t lh ll).1 ++ (ghostPushback h t lh ll).2)
      (t :: (lh ++ ll)) := by
  rw [ghostPushback]
  split
  · rw [List.append_assoc]
    exact List.perm_middle
  · rw [← List.append_assoc]
    exact List.perm_append_singleton t (lh ++ ll)

theorem ghostInsert_perm (h : TaskHeap) (t pos : Nat) (lh ll : List Nat) :
    List.Perm ((ghostInsert h t pos lh ll).1 ++ (ghostInsert h t pos lh ll).2)
      (t :: (lh ++ ll)) := by
  have hle1 : insertIdxOfPos lh.length pos ≤ lh.length := by
    rw [insertIdxOfPos]; split <;> omega
  have hle2 : insertIdxOfPos ll.length pos ≤ ll.length := by
    rw [insertIdxOfPos]; split <;> omega
  by_cases hp : (h t).prio = PRIO_HIGH
  · simp only [ghostInsert, if_pos hp]
    rw [insertIdx_eq_take_cons_drop t _ lh hle1, List.append_assoc]
    refine List.Perm.trans List.perm_middle ?_
    simp only [List.append_eq]
    rw [← List.append_assoc, List.take_append_drop]
  · simp only [ghostInsert, if_neg hp]
    rw [insertIdx_eq_take_cons_drop t _ ll hle2, ← List.append_assoc]
    refine List.Perm.trans List.perm_middle ?_
    rw [List.append_assoc, List.take_append_drop]

theorem ghostPop_sublist (lh ll : List Nat) :
    List.Sublist ((ghostPop lh ll).1 ++ (ghostPop lh ll).2) (lh ++ ll) := by
  cases lh with
  | nil =>
      simp only [ghostPop, List.nil_append]
      exact List.tail_sublist ll
  | cons x rest =>
      simp only [ghostPop]
      exact List.Sublist.append (List.sublist_cons_self x rest)
        (List.Sublist.refl ll)

theorem ghostPopback_sublist (lh ll : List Nat) :
    List.Sublist ((ghostPopback lh ll).1 ++ (ghostPopback lh ll).2) (lh ++ ll) := by
  cases lh with
  | nil =>
      simp only [ghostPopback, List.nil_append]
      exact List.dropLast_sublist ll
  | cons x rest =>
      simp only [ghostPopback]
      exact List.Sublist.append (List.dropLast_sublist (x :: rest))
        (List.Sublist.refl ll)

theorem ghostRemove_sublist (t : Nat) (lh ll : List Nat) :
    List.Sublist ((ghostRemove t lh ll).1 ++ (ghostRemove t lh ll).2) (lh ++ ll) := by
  rw [ghostRemove]
  split
  · exact List.Sublist.append (List.erase_sublist t lh) (List.Sublist.refl ll)
  · exact List.Sublist.append (List.Sublist.refl lh) (List.erase_sublist t ll)

theorem nodup_perm_left {A B C : List Nat} {t : Nat}
    (hnd : (A ++ C).Nodup) (hf : t ∉ A ++ C)
    (hperm : List.Perm B (t :: A)) : (B ++ C).Nodup := by
  have h1 : List.Perm (B ++ C) (t :: (A ++ C)) := hperm.append_right C
  have h2 : (t :: (A ++ C)).Nodup := List.nodup_cons.mpr ⟨hf, hnd⟩
  exact h1.nodup_iff.mpr h2

theorem nodup_perm_right {A C D : List Nat} {t : Nat}
    (hnd : (A ++ C).Nodup) (hf : t ∉ A ++ C)
    (hperm : List.Perm D (t :: C)) : (A ++ D).Nodup := by
  have h1 : List.Perm (A ++ D) (A ++ t :: C) := List.Perm.append_left A hperm
  have h2 : List.Perm (A ++ t :: C) (t :: (A ++ C)) := List.perm_middle
  have h3 : (t :: (A ++ C)).Nodup := List.nodup_cons.mpr ⟨hf, hnd⟩
  exact ((h1.trans h2).nodup_iff).mpr h3

theorem nodup_sublist_left {A B C : List Nat}
    (hnd : (A ++ C).Nodup) (hsub : List.Sublist B A) : (B ++ C).Nodup :=
  List.Nodup.sublist (List.Sublist.append hsub (List.Sublist.refl C)) hnd

theorem nodup_sublist_right {A C D : List Nat}
    (hnd : (A ++ C).Nodup) (hsub : List.Sublist D C) : (A ++ D).Nodup :=
  List.Nodup.sublist (List.Sublist.append (List.Sublist.refl A) hsub) hnd

theorem perm_move (A B C D : List Nat) :
    List.Perm (A ++ B ++ (C ++ D)) ((C ++ A) ++ (D ++ B)) := by
  refine List.perm_iff_count.mpr (fun a => ?_)
  simp only [List.count_append]
  omega

theorem tqRepr_frame {h h' : TaskHeap} {tq : dart_taskqueue_t}
    {lh ll S : List Nat} (hq : tqRepr h tq lh ll) (hfr : heapFrame h h' S)
    (hdisj : ∀ x ∈ lh ++ ll, x ∉ S) : tqRepr h' tq lh ll := by
  obtain ⟨hrh, hrl, hnd, hph, hpl⟩ := hq
  refine ⟨dequeRepr_congr hrh
      (fun x hx => hfr x (hdisj x (List.mem_append.mpr (Or.inl hx)))),
    dequeRepr_congr hrl
      (fun x hx => hfr x (hdisj x (List.mem_append.mpr (Or.inr hx)))),
    hnd, ?_, ?_⟩
  · intro a ha
    rw [hfr a (hdisj a (List.mem_append.mpr (Or.inl ha)))]
    exact hph a ha
  · intro a ha
    rw [hfr a (hdisj a (List.mem_append.mpr (Or.inr ha)))]
    exact hpl a ha

theorem TQInv_init (h : TaskHeap) : TQInv (TQinit h) :=
  ⟨⟨⟨rfl, rfl, List.nodup_nil⟩, ⟨rfl, rfl, List.nodup_nil⟩, List.nodup_nil,
      fun a ha => absurd ha (List.not_mem_nil a),
      fun a ha => absurd ha (List.not_mem_nil a)⟩,
    ⟨⟨rfl, rfl, List.nodup_nil⟩, ⟨rfl, rfl, List.nodup_nil⟩, List.nodup_nil,
      fun a ha => absurd ha (List.not_mem_nil a),
      fun a ha => absurd ha (List.not_mem_nil a)⟩,
    List.nodup_nil⟩

theorem TQInv_step {s s' : TQState} (hstep : QStep s s') (hinv : TQInv s) :
    TQInv s' := by
  obtain ⟨hq1, hq2, hnd⟩ := hinv
  cases hstep with
  | push1 t hfresh =>
      have hf1 : t ∉ s.l1h ++ s.l1l := fun hm =>
        hfresh (List.mem_append.mpr (Or.inl hm))
      obtain ⟨hq1', hfr⟩ := taskqueue_push_refines hq1 hf1
      refine ⟨hq1', tqRepr_frame hq2 hfr ?_, ?_⟩
      · intro x hx hmem
        rcases List.mem_cons.mp hmem with rfl | hmem
        · exact hfresh (List.mem_append.mpr (Or.inr hx))
        · exact List.disjoint_of_nodup_append hnd hmem hx
      · exact nodup_perm_left hnd hfresh (ghostPush_perm s.heap t s.l1h s.l1l)
  | push2 t hfresh =>
      have hf2 : t ∉ s.l2h ++ s.l2l := fun hm =>
        hfresh (List.mem_append.mpr (Or.inr hm))
      obtain ⟨hq2', hfr⟩ := taskqueue_push_refines hq2 hf2
      refine ⟨tqRepr_frame hq1 hfr ?_, hq2', ?_⟩
      · intro x hx hmem
        rcases List.mem_cons.mp hmem with rfl | hmem
        · exact hfresh (List.mem_append.mpr (Or.inl hx))
        · exact List.disjoint_of_nodup_append hnd hx hmem
      · exact nodup_perm_right hnd hfresh (ghostPush_perm s.heap t s.l2h s.l2l)
  | pushback1 t hfresh =>
      have hf1 : t ∉ s.l1h ++ s.l1l := fun hm =>
        hfresh (List.mem_append.mpr (Or.inl hm))
      obtain ⟨hq1', hfr⟩ := taskqueue_pushback_refines hq1 hf1
      refine ⟨hq1', tqRepr_frame hq2 hfr ?_, ?_⟩
      · intro x hx hmem
        rcases List.mem_cons.mp hmem with rfl | hmem
        · exact hfresh (List.mem_append.mpr (Or.inr hx))
        · exact List.disjoint_of_nodup_append hnd hmem hx
      · exact nodup_perm_left hnd hfresh
          (ghostPushback_perm s.heap t s.l1h s.l1l)
  | pushback2 t hfresh =>
      have hf2 : t ∉ s.l2h ++ s.l2l := fun hm =>
        hfresh (List.mem_append.mpr (Or.inr hm))
      obtain ⟨hq2', hfr⟩ := taskqueue_pushback_refines hq2 hf2
      refine ⟨tqRepr_frame hq1 hfr ?_, hq2', ?_⟩
      · intro x hx hmem
        rcases List.mem_cons.mp hmem with rfl | hmem
        · exact hfresh (List.mem_append.mpr (Or.inl hx))
        · exact List.disjoint_of_nodup_append hnd hx hmem
      · exact nodup_perm_right hnd hfresh
          (ghostPushback_perm s.heap t s.l2h s.l2l)
  | insert1 t pos hfresh =>
      have hf1 : t ∉ s.l1h ++ s.l1l := fun hm =>
        hfresh (List.mem_append.mpr (Or.inl hm))
      obtain ⟨hq1', hfr⟩ := taskqueue_insert_refines hq1 hf1
      refine ⟨hq1', tqRepr_frame hq2 hfr ?_, ?_⟩
      · intro x hx hmem
        rcases List.mem_cons.mp hmem with rfl | hmem
        · exact hfresh (List.mem_append.mpr (Or.inr hx))
        · exact List.disjoint_of_nodup_append hnd hmem hx
      · exact nodup_perm_left hnd hfresh
          (ghostInsert_perm s.heap t pos s.l1h s.l1l)
  | insert2 t pos hfresh =>
      have hf2 : t ∉ s.l2h ++ s.l2l := fun hm =>
        hfresh (List.mem_append.mpr (Or.inr hm))
      obtain ⟨hq2', hfr⟩ := taskqueue_insert_refines hq2 hf2
      refine ⟨tqRepr_frame hq1 hfr ?_, hq2', ?_⟩
      · intro x hx hmem
        rcases List.mem_cons.mp hmem with rfl | hmem
        · exact hfresh (List.mem_append.mpr (Or.inl hx))
        · exact List.disjoint_of_nodup_append hnd hx hmem
      · exact nodup_perm_right hnd hfresh
          (ghostInsert_perm s.heap t pos s.l2h s.l2l)
  | pop1 =>
      obtain ⟨-, hq1', hfr⟩ := taskqueue_pop_refines hq1
      refine ⟨hq1', tqRepr_frame hq2 hfr ?_, ?_⟩
      · intro x hx hmem
        exact List.disjoint_of_nodup_append hnd hmem hx
      · exact nodup_sublist_left hnd (ghostPop_sublist s.l1h s.l1l)
  | pop2 =>
      obtain ⟨-, hq2', hfr⟩ := taskqueue_pop_refines hq2
      refine ⟨tqRepr_frame hq1 hfr ?_, hq2', ?_⟩
      · intro x hx hmem
        exact List.disjoint_of_nodup_append hnd hx hmem
      · exact nodup_sublist_right hnd (ghostPop_sublist s.l2h s.l2l)
  | popback1 =>
      obtain ⟨-, hq1', hfr⟩ := taskqueue_popback_refines hq1
      refine ⟨hq1', tqRepr_frame hq2 hfr ?_, ?_⟩
      · intro x hx hmem
        exact List.disjoint_of_nodup_append hnd hmem hx
      · exact nodup_sublist_left hnd (ghostPopback_sublist s.l1h s.l1l)
  | popback2 =>
      obtain ⟨-, hq2', hfr⟩ := taskqueue_popback_refines hq2
      refine ⟨tqRepr_frame hq1 hfr ?_, hq2', ?_⟩
      · intro x hx hmem
        exact List.disjoint_of_nodup_append hnd hx hmem
      · exact nodup_sublist_right hnd (ghostPopback_sublist s.l2h s.l2l)
  | remove1 t hmem =>
      obtain ⟨hq1', hfr⟩ := taskqueue_remove_refines hq1 hmem
      refine ⟨hq1', tqRepr_frame hq2 hfr ?_, ?_⟩
      · intro x hx hm
        exact List.disjoint_of_nodup_append hnd hm hx
      · exact nodup_sublist_left hnd (ghostRemove_sublist t s.l1h s.l1l)
  | remove2 t hmem =>
      obtain ⟨hq2', hfr⟩ := taskqueue_remove_refines hq2 hmem
      refine ⟨tqRepr_frame hq1 hfr ?_, hq2', ?_⟩
      · intro x hx hm
        exact List.disjoint_of_nodup_append hnd hx hm
      · exact nodup_sublist_right hnd (ghostRemove_sublist t s.l2h s.l2l)
  | move12 =>
      obtain ⟨hdst, hsrc, -⟩ := taskqueue_move_refines hq1 hq2 hnd
      refine ⟨hdst, hsrc, ?_⟩
      have hh := (perm_move s.l1h s.l1l s.l2h s.l2l).nodup_iff.mp hnd
      simpa using hh
  | move21 =>
      have hnd' : (s.l2h ++ s.l2l ++ (s.l1h ++ s.l1l)).Nodup :=
        (List.perm_append_comm).nodup_iff.mp hnd
      obtain ⟨hdst, hsrc, -⟩ := taskqueue_move_refines hq2 hq1 hnd'
      refine ⟨hsrc, hdst, ?_⟩
      have hh := (perm_move s.l2h s.l2l s.l1h s.l1l).nodup_iff.mp hnd'
      simpa using hh

theorem TQInv_reachable {h : TaskHeap} {s : TQState}
    (hr : QReachable (TQinit h) s) : TQInv s := by
  induction hr with
  | refl => exact TQInv_init h
  | tail hstep ih => exact TQInv_step ih (by assumption)

/-! ## The claims -/

/-- C2: calling yield from a task carrying the INLINE flag returns
`DART_ERR_INVAL` and leaves the task and scheduler state unchanged: no
suspension, no requeue, no state transition, no remote progress. -/
theorem C2_yield_inline_inval (s : YieldState) (delay : Int)
    (next1 next2 : Option Nat) (hrun : s.threads_running = true)
    (hcancel : s.cancellation_requested = false)
    (hinl : s.current_task.flags.is_inlined = true) :
    dart__tasking__yield s delay next1 next2
      = (inline_reject, some DART_ERR_INVAL, s) := by
  simp [dart__tasking__yield, hrun, hcancel, hinl]

theorem C2_witness :
    dart__tasking__yield exYieldInline 0 none none
      = (inline_reject, some DART_ERR_INVAL, exYieldInline) :=
  C2_yield_inline_inval exYieldInline 0 none none rfl rfl rfl

/-- C10: calling yield before the worker threads have been started returns
`DART_OK` immediately with the state untouched: the caller is not
suspended, no queue is probed and no remote progress is performed. -/
theorem C10_yield_no_threads (s : YieldState) (delay : Int)
    (next1 next2 : Option Nat) (h : s.threads_running = false) :
    dart__tasking__yield s delay next1 next2 = (no_threads, some DART_OK, s) := by
  simp [dart__tasking__yield, h]

theorem C10_witness :
    dart__tasking__yield exYieldNT 1 none none
      = (no_threads, some DART_OK, exYieldNT) :=
  C10_yield_no_threads exYieldNT 1 none none rfl

/-- C5: task creation always returns `DART_OK`.  During cancellation the
task is dropped — no descriptor is allocated, the state is unchanged — and
`DART_OK` is still returned; a task whose phase is not yet runnable is
deferred (appended to the deferred queue in state `DART_TASK_DEFERRED`)
and `DART_OK` is returned as well. -/
theorem C5_create_task_ok (s : CreateState)
    (prio parent_prio : dart_task_prio_t)
    (noyield want_ref parent_is_root deps_runnable : Bool) :
    (dart__tasking__create_task s prio parent_prio noyield want_ref
        parent_is_root deps_runnable).ret = DART_OK ∧
    (s.cancellation_requested = true →
      dart__tasking__create_task s prio parent_prio noyield want_ref
          parent_is_root deps_runnable
        = { ret := DART_OK, task := none, s := s }) ∧
    (s.cancellation_requested = false → parent_is_root = true →
      deps_runnable = true → s.phase_runnable s.phase_current = false →
      (dart__tasking__create_task s prio parent_prio noyield want_ref
          parent_is_root deps_runnable).s.deferred_q
          = s.deferred_q ++ [s.next_task_id] ∧
      (dart__tasking__create_task s prio parent_prio noyield want_ref
          parent_is_root deps_runnable).s.task_state s.next_task_id
          = DART_TASK_DEFERRED) := by
  refine ⟨?_, ?_, ?_⟩
  · by_cases hc : s.cancellation_requested
    · unfold dart__tasking__create_task
      rw [if_pos hc]
    · unfold dart__tasking__create_task
      rw [if_neg hc]
  · intro hc
    unfold dart__tasking__create_task
    rw [if_pos hc]
  · intro hc hro hdr hph
    have hc' : ¬ (s.cancellation_requested = true) := by simp [hc]
    unfold dart__tasking__create_task
    rw [if_neg hc']
    by_cases htr : s.threads_running
    · simp [dart__tasking__enqueue_runnable, hc, hro, hdr, hph, htr]
    · simp [dart__tasking__enqueue_runnable, hc, hro, hdr, hph, htr]

theorem C5_witness :
    (dart__tasking__create_task exCreateDefer PRIO_DEFAULT PRIO_DEFAULT
        false false true true).ret = DART_OK ∧
    ((dart__tasking__create_task exCreateDefer PRIO_DEFAULT PRIO_DEFAULT
        false false true true).s.deferred_q = [7] ∧
     (dart__tasking__create_task exCreateDefer PRIO_DEFAULT PRIO_DEFAULT
        false false true true).s.task_state 7 = DART_TASK_DEFERRED) :=
  ⟨(C5_create_task_ok exCreateDefer PRIO_DEFAULT PRIO_DEFAULT
      false false true true).1,
   (C5_create_task_ok exCreateDefer PRIO_DEFAULT PRIO_DEFAULT
      false false true true).2.2 rfl rfl rfl rfl⟩

/-- C6 counterexample: with page size 4096 and `TASKSTACKSIZE=5000` the
initialization keeps 5000 bytes — not a multiple of the page size — where
the specified rounding up would give 8192. -/
theorem C6_counterexample :
    dart__tasking__context_init 4096 (some 5000) = 5000 ∧
    ¬ (4096 ∣ dart__tasking__context_init 4096 (some 5000)) ∧
    spec_stack_size 4096 (some 5000) = 8192 :=
  ⟨rfl, by decide, rfl⟩

/-- C6 (amended): the initialized per-task stack size is
`max DEFAULT_TASK_STACK_SIZE page_size` (2 MiB default) when
`DART_TASKSTACKSIZE` is unset, and `max v page_size` — the raw environment
value, not rounded up to a page multiple — when it holds `v`. -/
theorem C6_context_init_stack_size (page_size : Nat) :
    dart__tasking__context_init page_size none
        = max DEFAULT_TASK_STACK_SIZE page_size ∧
    ∀ v, dart__tasking__context_init page_size (some v) = max v page_size := by
  constructor
  · simp only [dart__tasking__context_init]
    split <;> omega
  · intro v
    simp only [dart__tasking__context_init]
    split <;> omega

/-- C7: `context_allocate` records the allocating thread as the entry's
owner; `context_release` pushes the entry exactly once onto that owner's
free list and leaves every other thread's free list — in particular a
distinct caller's — unchanged. -/
theorem C7_context_release_owner (s : CtxState) (ctx : Nat) :
    (dart__tasking__context_release s ctx).ctxlist (s.ctx_owner ctx)
        = ctx :: s.ctxlist (s.ctx_owner ctx) ∧
    (∀ a, a ≠ s.ctx_owner ctx →
      (dart__tasking__context_release s ctx).ctxlist a = s.ctxlist a) ∧
    (∀ caller,
      ((dart__tasking__context_allocate s caller).2).ctx_owner
          (dart__tasking__context_allocate s caller).1 = caller) := by
  refine ⟨?_, ?_, ?_⟩
  · simp [dart__tasking__context_release]
  · intro a ha
    simp [dart__tasking__context_release, ha]
  · intro caller
    simp [dart__tasking__context_allocate]

theorem C7_witness :
    (dart__tasking__context_release exCtx 0).ctxlist 2 = [0] ∧
    (dart__tasking__context_release exCtx 0).ctxlist 5 = [] :=
  ⟨(C7_context_release_owner exCtx 0).1,
   (C7_context_release_owner exCtx 0).2.1 5 (by decide)⟩

/-- C9: active-message sending reports the transient `DART_ERR_AGAIN` —
never a fatal error — when the send ring is full and no outstanding send
has completed, and whenever the transport send returns non-success;
nonblocking processing without the lock reports `DART_ERR_AGAIN` when the
processing mutex cannot be taken. -/
theorem C9_amsg_again (q : dart_amsgq_impl_data) (target outcount : Nat)
    (mpi_success : Bool) (rounds : List Nat) :
    (q.direct_send = false → q.send_tailpos = q.msg_count → outcount = 0 →
      dart_amsg_sendrecv_trysend q target outcount mpi_success
        = (DART_ERR_AGAIN, q)) ∧
    (mpi_success = false →
      (dart_amsg_sendrecv_trysend q target outcount mpi_success).1
        = DART_ERR_AGAIN) ∧
    amsg_sendrecv_process_internal q false false false rounds
        = (DART_ERR_AGAIN, 0) := by
  refine ⟨?_, ?_, ?_⟩
  · intro hd hr ho
    simp [dart_amsg_sendrecv_trysend, amsgq_test_sendreqs, hd, hr, ho]
  · intro hm
    by_cases hd : q.direct_send
    · simp [dart_amsg_sendrecv_trysend, hd, hm]
    · rw [dart_amsg_sendrecv_trysend, if_pos (by simp [hd])]
      set tested := (if q.send_tailpos = q.msg_count
        then amsgq_test_sendreqs q outcount else (DART_OK, q)) with htested
      have hcases : tested.1 = DART_OK ∨ tested.1 = DART_ERR_AGAIN := by
        rw [htested]
        split
        · rw [amsgq_test_sendreqs]
          split
          · split
            · simp
            · simp
          · simp
        · simp
      by_cases ht : tested.1 ≠ DART_OK
      · rw [if_pos ht]
        rcases hcases with hok | hagain
        · exact absurd hok ht
        · exact hagain
      · rw [if_neg ht]
        simp [hm]
  · simp [amsg_sendrecv_process_internal]

theorem C9_witness :
    dart_amsg_sendrecv_trysend exAmsgFull 0 0 true = (DART_ERR_AGAIN, exAmsgFull) ∧
    amsg_sendrecv_process_internal exAmsgFull false false false []
        = (DART_ERR_AGAIN, 0) :=
  ⟨(C9_amsg_again exAmsgFull 0 0 true []).1 rfl rfl rfl,
   (C9_amsg_again exAmsgFull 0 0 true []).2.2⟩

/-- C1 counterexample: requeueing task 4 with `delay = 1` into the deque
1-2-3 produces the chain 1-2-4-3 — the task sits two positions from the
head, not one; the chain 1-4-2-3 demanded by the specification is not the
result. -/
theorem C1_counterexample :
    segb (requeue_task exHeapC1 exQueueC1 4 1).1 none
        ((requeue_task exHeapC1 exQueueC1 4 1).2.lowprio.head)
        [1, 2, 4, 3] none = true ∧
    segb (requeue_task exHeapC1 exQueueC1 4 1).1 none
        ((requeue_task exHeapC1 exQueueC1 4 1).2.lowprio.head)
        [1, 4, 2, 3] none = false := by
  decide

/-- C1 (amended): the requeue policy after `yield(delay)` places the task
at the head of its priority deque for `delay == 0` and at the tail for
`delay < 0`, but a positive `delay` inserts it at list index
`min(length, delay+1)` — directly behind the element at index `delay` —
not at index `delay`. -/
theorem C1_requeue_policy {h : TaskHeap} {tq : dart_taskqueue_t}
    {lh ll : List Nat} {t : Nat} (delay : Int)
    (hq : tqRepr h tq lh ll) (hf : t ∉ lh ++ ll) :
    tqRepr (requeue_task h tq t delay).1 (requeue_task h tq t delay).2
      (ghostRequeue h t delay lh ll).1 (ghostRequeue h t delay lh ll).2 ∧
    (delay > 0 → (h t).prio ≠ PRIO_HIGH →
      (ghostRequeue h t delay lh ll).2
        = List.insertIdx (min ll.length (delay.toNat + 1)) t ll) ∧
    (delay > 0 → (h t).prio = PRIO_HIGH →
      (ghostRequeue h t delay lh ll).1
        = List.insertIdx (min lh.length (delay.toNat + 1)) t lh) := by
  refine ⟨?_, ?_, ?_⟩
  · unfold requeue_task ghostRequeue
    by_cases h0 : delay = 0
    · simp only [if_pos h0]
      exact (taskqueue_push_refines hq hf).1
    · by_cases hpos : delay > 0
      · simp only [if_neg h0, if_pos hpos]
        exact (taskqueue_insert_refines hq hf).1
      · simp only [if_neg h0, if_neg hpos]
        exact (taskqueue_pushback_refines hq hf).1
  · intro hpos hprio
    unfold ghostRequeue
    rw [if_neg (by omega), if_pos hpos]
    simp only [ghostInsert, if_neg hprio]
    rw [insertIdxOfPos, if_neg (by omega)]
  · intro hpos hprio
    unfold ghostRequeue
    rw [if_neg (by omega), if_pos hpos]
    simp only [ghostInsert, if_pos hprio]
    rw [insertIdxOfPos, if_neg (by omega)]

theorem C1_witness :
    tqRepr (requeue_task exHeapC1 exQueueC1 4 1).1
      (requeue_task exHeapC1 exQueueC1 4 1).2
      (ghostRequeue exHeapC1 4 1 [] [1, 2, 3]).1
      (ghostRequeue exHeapC1 4 1 [] [1, 2, 3]).2 ∧
    (ghostRequeue exHeapC1 4 1 [] [1, 2, 3]).2
      = List.insertIdx (min 3 2) 4 [1, 2, 3] := by
  have hq : tqRepr exHeapC1 exQueueC1 [] [1, 2, 3] :=
    ⟨⟨by decide, by decide, by decide⟩, ⟨by decide, by decide, by decide⟩,
     by decide, by simp, by decide⟩
  have hC := @C1_requeue_policy exHeapC1 exQueueC1 [] [1, 2, 3] 4 1 hq (by decide)
  exact ⟨hC.1, hC.2.1 (by decide) (by decide)⟩

/-- A deque faithfully spelling some list has a null head exactly when its
tail is null. -/
theorem dequeRepr_head_tail_none {h : TaskHeap} {d : task_deque} {l : List Nat}
    (hr : dequeRepr h d l) : d.head = none ↔ d.tail = none := by
  obtain ⟨hs, ht, -⟩ := hr
  have hh : d.head = headPtr l none := segb_head hs
  cases l with
  | nil => simp [hh, ht, headPtr]
  | cons x l' =>
      rw [hh, ht]
      simp [headPtr, List.getLast?_eq_none_iff]

/-- C3: along every trace of push, pushback, pop, popback, insert, move and
remove operations from the two freshly initialized queues, each of the four
deques satisfies `head == NULL` exactly when `tail == NULL`. -/
theorem C3_head_tail_null {h : TaskHeap} {s : TQState}
    (hr : QReachable (TQinit h) s) :
    (s.q1.highprio.head = none ↔ s.q1.highprio.tail = none) ∧
    (s.q1.lowprio.head = none ↔ s.q1.lowprio.tail = none) ∧
    (s.q2.highprio.head = none ↔ s.q2.highprio.tail = none) ∧
    (s.q2.lowprio.head = none ↔ s.q2.lowprio.tail = none) := by
  obtain ⟨hq1, hq2, -⟩ := TQInv_reachable hr
  exact ⟨dequeRepr_head_tail_none hq1.1, dequeRepr_head_tail_none hq1.2.1,
    dequeRepr_head_tail_none hq2.1, dequeRepr_head_tail_none hq2.2.1⟩

theorem C3_witness :
    (exStep1.q1.highprio.head = none ↔ exStep1.q1.highprio.tail = none) ∧
    (exStep1.q1.lowprio.head = none ↔ exStep1.q1.lowprio.tail = none) ∧
    (exStep1.q2.highprio.head = none ↔ exStep1.q2.highprio.tail = none) ∧
    (exStep1.q2.lowprio.head = none ↔ exStep1.q2.lowprio.tail = none) :=
  C3_head_tail_null
    (Relation.ReflTransGen.single (QStep.push1 (TQinit exHeap0) 1 (by decide)))

/-- C4: `pop` and `popback` drain the high-priority deque before the
low-priority one: a returned task is a high-priority member whenever the
high-priority deque is nonempty, and a low-priority task is returned only
when the high-priority deque is empty. -/
theorem C4_pop_prefers_high {h : TaskHeap} {tq : dart_taskqueue_t}
    {lh ll : List Nat} (hq : tqRepr h tq lh ll) :
    (∀ t, (dart_tasking_taskqueue_pop h tq).1 = some t →
      (t ∈ lh ∧ (h t).prio = PRIO_HIGH) ∨ (lh = [] ∧ t ∈ ll)) ∧
    (∀ t, (dart_tasking_taskqueue_popback h tq).1 = some t →
      (t ∈ lh ∧ (h t).prio = PRIO_HIGH) ∨ (lh = [] ∧ t ∈ ll)) := by
  obtain ⟨hret1, -, -⟩ := taskqueue_pop_refines hq
  obtain ⟨hret2, -, -⟩ := taskqueue_popback_refines hq
  have hprioh := hq.2.2.2.1
  constructor
  · intro t hret
    rw [hret1] at hret
    cases lh with
    | nil =>
        right
        refine ⟨rfl, ?_⟩
        rw [List.nil_append] at hret
        exact List.mem_of_mem_head? (by rw [hret]; rfl)
    | cons x lh' =>
        left
        have hxt : x = t := by
          rw [List.cons_append, List.head?_cons] at hret
          injection hret
        subst hxt
        exact ⟨by simp, hprioh x (by simp)⟩
  · intro t hret
    rw [hret2] at hret
    rcases List.eq_nil_or_concat lh with rfl | ⟨l₀, a, rfl⟩
    · right
      refine ⟨rfl, ?_⟩
      rw [List.append_nil] at hret
      exact List.mem_of_mem_getLast? (by rw [hret]; rfl)
    · left
      have hat : a = t := by
        rw [List.concat_eq_append, ← List.append_assoc,
          List.getLast?_concat] at hret
        injection hret
      subst hat
      refine ⟨by simp, hprioh a (by simp)⟩

theorem C4_witness :
    (10 ∈ ([10] : List Nat) ∧ (exHeapC4 10).prio = PRIO_HIGH) ∨
      (([10] : List Nat) = [] ∧ 10 ∈ ([20] : List Nat)) :=
  (C4_pop_prefers_high
    (⟨⟨by decide, by decide, by decide⟩, ⟨by decide, by decide, by decide⟩,
      by decide, by decide, by decide⟩ :
        tqRepr exHeapC4 exQueueC4 [10] [20])).1 10 (by decide)

/-- A pool of the requested size exists exactly when the size occurs among
the pool keys. -/
theorem find_mem_pool_isSome (pools : List mem_pool_t) (size : Nat) :
    (find_mem_pool pools size).isSome = true
      ↔ size ∈ pools.map mem_pool_t.size := by
  induction pools with
  | nil => simp [find_mem_pool]
  | cons p rest ih =>
      by_cases hs : size = p.size
      · simp [find_mem_pool, hs]
      · simp [find_mem_pool, hs, ih]

/-- Popping a freelist does not change the set of pool keys. -/
theorem mempool_pop_sizes (pools : List mem_pool_t) (size : Nat) :
    ((mempool_pop pools size).2).map mem_pool_t.size
      = pools.map mem_pool_t.size := by
  induction pools with
  | nil => rfl
  | cons p rest ih =>
      by_cases hs : size = p.size
      · cases hel : p.elems with
        | nil => simp [mempool_pop, hs, hel]
        | cons e es => simp [mempool_pop, hs, hel]
      · simp [mempool_pop, hs, ih]

/-- A popped element comes from the freelist of a pool of the requested
size. -/
theorem mempool_pop_mem {pools : List mem_pool_t} {size e : Nat}
    (h : (mempool_pop pools size).1 = some e) :
    ∃ p, p ∈ pools ∧ p.size = size ∧ e ∈ p.elems := by
  induction pools with
  | nil => simp [mempool_pop] at h
  | cons p rest ih =>
      by_cases hs : size = p.size
      · cases hel : p.elems with
        | nil => simp [mempool_pop, hs, hel] at h
        | cons e0 es =>
            simp only [mempool_pop, if_pos hs, hel] at h
            injection h with h2
            exact ⟨p, by simp, hs.symm, by rw [hel, ← h2]; simp⟩
      · simp only [mempool_pop, if_neg hs] at h
        obtain ⟨q, hq1, hq2, hq3⟩ := ih h
        exact ⟨q, by simp [hq1], hq2, hq3⟩

/-- Pushing onto the pool of a present size class conses the element onto
exactly that pool's freelist. -/
theorem mempool_push_find {pools : List mem_pool_t} {size : Nat} (e : Nat)
    (hmem : size ∈ pools.map mem_pool_t.size) :
    ∃ p, find_mem_pool pools size = some p ∧
      find_mem_pool (mempool_push pools size e) size
        = some { p with elems := e :: p.elems } := by
  induction pools with
  | nil => simp at hmem
  | cons p rest ih =>
      by_cases hs : size = p.size
      · refine ⟨p, ?_, ?_⟩
        · rw [find_mem_pool, if_pos hs]
        · rw [mempool_push, if_pos hs, find_mem_pool, if_pos hs]
      · have hmem' : size ∈ rest.map mem_pool_t.size := by
          simp only [List.map_cons, List.mem_cons] at hmem
          rcases hmem with h1 | h1
          · exact absurd h1 hs
          · exact h1
        obtain ⟨q, hq1, hq2⟩ := ih hmem'
        refine ⟨q, ?_, ?_⟩
        · rw [find_mem_pool, if_neg hs]
          exact hq1
        · rw [mempool_push, if_neg hs, find_mem_pool, if_neg hs]
          exact hq2

/-- Allocation from a coherent pool state yields an element stamped with
the magic word and the back-pointer of the requested size class, and the
size class is present afterwards. -/
theorem allocate_from_mempool_spec {s : MempoolState} (hinv : MempoolInv s)
    (size : Nat) :
    ((allocate_from_mempool s size).2.elem_data
        (allocate_from_mempool s size).1).magic = MEMPOOL_MAGIC_NUM ∧
    ((allocate_from_mempool s size).2.elem_data
        (allocate_from_mempool s size).1).mpool = size ∧
    size ∈ (allocate_from_mempool s size).2.mem_pool.map mem_pool_t.size := by
  obtain ⟨-, hel⟩ := hinv
  by_cases hf : (find_mem_pool s.mem_pool size).isSome
  · have hmem : size ∈ s.mem_pool.map mem_pool_t.size :=
      (find_mem_pool_isSome s.mem_pool size).mp hf
    cases hpop : (mempool_pop s.mem_pool size).1 with
    | some e =>
        obtain ⟨p, hp1, hp2, hp3⟩ := mempool_pop_mem hpop
        obtain ⟨hm, hmp, -⟩ := hel p hp1 e hp3
        simp only [allocate_from_mempool, if_pos hf, hpop]
        exact ⟨hm, by rw [hmp, hp2], by rw [mempool_pop_sizes]; exact hmem⟩
    | none =>
        simp only [allocate_from_mempool, if_pos hf, hpop]
        refine ⟨by simp, by simp, ?_⟩
        rw [mempool_pop_sizes]
        exact hmem
  · cases hpop : (mempool_pop ({ size := size, elems := [] } :: s.mem_pool) size).1 with
    | some e =>
        obtain ⟨p, hp1, hp2, hp3⟩ := mempool_pop_mem hpop
        rcases List.mem_cons.mp hp1 with rfl | hp1'
        · simp at hp3
        · obtain ⟨hm, hmp, -⟩ := hel p hp1' e hp3
          simp only [allocate_from_mempool, if_neg hf, hpop]
          exact ⟨hm, by rw [hmp, hp2], by rw [mempool_pop_sizes]; simp⟩
    | none =>
        simp only [allocate_from_mempool, if_neg hf, hpop]
        refine ⟨by simp, by simp, ?_⟩
        rw [mempool_pop_sizes]
        simp

/-- Skipping a prefix of non-`COPYIN_OUT` dependencies only re-prepends
the prefix to the result. -/
theorem prepare_dep_skip {s : MempoolState} {pre rest : List dart_dephash_elem_t}
    (hpre : ∀ x ∈ pre, x.deptype ≠ DART_DEP_COPYIN_OUT) :
    dart_tasking_copyin_prepare_dep s (pre ++ rest)
      = (dart_tasking_copyin_prepare_dep s rest).map
          (fun r => (pre ++ r.1, r.2.1, r.2.2)) := by
  induction pre with
  | nil =>
      cases hp : dart_tasking_copyin_prepare_dep s rest <;> simp [hp]
  | cons x pre' ih =>
      have hx : ¬ (x.deptype = DART_DEP_COPYIN_OUT) := hpre x (by simp)
      have hpre' : ∀ y ∈ pre', y.deptype ≠ DART_DEP_COPYIN_OUT :=
        fun y hy => hpre y (by simp [hy])
      rw [List.cons_append]
      simp only [dart_tasking_copyin_prepare_dep, if_neg hx]
      rw [ih hpre', Option.map_map]
      cases hp : dart_tasking_copyin_prepare_dep s rest <;> simp [hp]

/-- C8: for a copy-in output dependency without a destination, preparation
allocates the buffer from the memory pool keyed by the dependency's size
(the element carries the magic word and the back-pointer of that size
class), installs the destructor on the record, and the destructor returns
the buffer — after passing the magic check — onto the freelist of the pool
of the same size class, clearing the destination. -/
theorem C8_copyin_pool_roundtrip {s : MempoolState}
    {pre rest : List dart_dephash_elem_t} {d : dart_dephash_elem_t}
    (hinv : MempoolInv s)
    (hpre : ∀ x ∈ pre, x.deptype ≠ DART_DEP_COPYIN_OUT)
    (hd : d.deptype = DART_DEP_COPYIN_OUT)
    (hdest : d.copyin.dest = none) :
    ∃ e s',
      dart_tasking_copyin_prepare_dep s (pre ++ d :: rest)
        = some (pre ++ ({ d with copyin := { d.copyin with dest := some e }
                                 has_dtor := true } :: rest),
                { d with copyin := { d.copyin with dest := some e }
                         has_dtor := true }, s') ∧
      (s'.elem_data e).magic = MEMPOOL_MAGIC_NUM ∧
      (s'.elem_data e).mpool = d.copyin.size ∧
      ∃ p, find_mem_pool s'.mem_pool d.copyin.size = some p ∧
        dart_tasking_copyin_release_mem s'
            { d with copyin := { d.copyin with dest := some e }
                     has_dtor := true }
          = some ({ d with copyin := { d.copyin with dest := none }
                           has_dtor := true },
                  { s' with
                    mem_pool := mempool_push s'.mem_pool d.copyin.size e }) ∧
        find_mem_pool (mempool_push s'.mem_pool d.copyin.size e) d.copyin.size
          = some { p with elems := e :: p.elems } := by
  obtain ⟨hmagic, hmpool, hsize⟩ := allocate_from_mempool_spec hinv d.copyin.size
  refine ⟨(allocate_from_mempool s d.copyin.size).1,
    (allocate_from_mempool s d.copyin.size).2, ?_, hmagic, ?_, ?_⟩
  · rw [prepare_dep_skip hpre]
    simp only [dart_tasking_copyin_prepare_dep, if_pos hd, if_pos hdest]
    rfl
  · exact hmpool
  · obtain ⟨p, hp1, hp2⟩ := mempool_push_find (allocate_from_mempool s d.copyin.size).1 hsize
    refine ⟨p, hp1, ?_, hp2⟩
    rw [dart_tasking_copyin_release_mem]
    simp only [return_to_mempool, hmagic, if_pos rfl, hmpool]
    rfl

theorem C8_witness :
    ∃ e s',
      dart_tasking_copyin_prepare_dep exMempool0 ([] ++ exDepC8 :: [])
        = some ([] ++ ({ exDepC8 with
                         copyin := { exDepC8.copyin with dest := some e }
                         has_dtor := true } :: []),
                { exDepC8 with
                  copyin := { exDepC8.copyin with dest := some e }
                  has_dtor := true }, s') ∧
      (s'.elem_data e).magic = MEMPOOL_MAGIC_NUM ∧
      (s'.elem_data e).mpool = exDepC8.copyin.size ∧
      ∃ p, find_mem_pool s'.mem_pool exDepC8.copyin.size = some p ∧
        dart_tasking_copyin_release_mem s'
            { exDepC8 with
              copyin := { exDepC8.copyin with dest := some e }
              has_dtor := true }
          = some ({ exDepC8 with
                    copyin := { exDepC8.copyin with dest := none }
                    has_dtor := true },
                  { s' with
                    mem_pool := mempool_push s'.mem_pool exDepC8.copyin.size e }) ∧
        find_mem_pool (mempool_push s'.mem_pool exDepC8.copyin.size e)
            exDepC8.copyin.size
          = some { p with elems := e :: p.elems } :=
  C8_copyin_pool_roundtrip ⟨by decide, by decide⟩ (by simp) rfl rfl
